import Mathlib

/-!
Verification development for the deterministic simulation core of a
peer-to-peer arena game (players, projectiles, destructible barriers on a
41×41 grid, rollback-netcode style pure tick function).

Modelling conventions
* The source stores positions and physics scalars in 32-bit floats; here
  they are modelled as exact numbers.  Because input directions are
  normalised with a Euclidean length (which introduces √2 for diagonal
  movement), the scalar type is `Q2`, the field ℚ(√2) of numbers
  `a + b·√2` with rational `a`, `b`.  All operations on `Q2` are
  computable and its order is decidable, so concrete game states can be
  evaluated with `decide`.
* Machine integers (the `u32` input words, `u64` scores and seeds) are
  modelled as `ℕ` with explicit `% 2 ^ 64` where wrap-around matters, and
  bitwise operations `&&&`, `|||`, `<<<`, `>>>`, `^^^` as on `ℕ`.
* The engine applies entity spawns/despawns issued through `Commands`
  only after the issuing system finishes; every system therefore sees the
  entity lists as they were when it started.  Each system below is a pure
  function computing removals/additions against its input lists, which is
  exactly that deferred semantics.
* `Vec2::distance p q < r` comparisons are translated to the equivalent
  squared comparison `distSq p q < r²` (valid since both sides of the
  source comparison are non-negative there); the equivalence with the
  square-root form is proved in `is_colliding_iff_sqrt`.
-/

attribute [local semireducible] Rat.mul Rat.add Rat.inv Rat.sub

namespace GameSim

/-- Structural-recursion integer square root (largest `k` with
`k * k ≤ n`); used instead of the library's well-founded-recursion
version so that concrete game states evaluate by kernel reduction. -/
def natSqrtGo (n : ℕ) : ℕ → ℕ
  | 0 => 0
  | k + 1 => if (k + 1) * (k + 1) ≤ n then k + 1 else natSqrtGo n k

def natSqrt (n : ℕ) : ℕ := natSqrtGo n n

def intSqrt (n : ℤ) : ℤ := (natSqrt n.toNat : ℤ)

/-- The scalar type: `a + b * √2` with `a b : ℚ`.  Closed under all
arithmetic the simulation performs (the only square roots taken are of
squared lengths of input direction vectors, which are 0, 1 or 2). -/
@[ext]
structure Q2 where
  a : ℚ
  b : ℚ
deriving DecidableEq, Repr

namespace Q2

def ofRat (q : ℚ) : Q2 := ⟨q, 0⟩

instance : Zero Q2 := ⟨⟨0, 0⟩⟩
instance : One Q2 := ⟨⟨1, 0⟩⟩
instance : Add Q2 := ⟨fun x y => ⟨x.a + y.a, x.b + y.b⟩⟩
instance : Neg Q2 := ⟨fun x => ⟨-x.a, -x.b⟩⟩
instance : Sub Q2 := ⟨fun x y => ⟨x.a - y.a, x.b - y.b⟩⟩
instance : Mul Q2 := ⟨fun x y => ⟨x.a * y.a + 2 * (x.b * y.b), x.a * y.b + x.b * y.a⟩⟩

theorem zero_def : (0 : Q2) = ⟨0, 0⟩ := rfl

theorem one_def : (1 : Q2) = ⟨1, 0⟩ := rfl

theorem add_def (x y : Q2) : x + y = ⟨x.a + y.a, x.b + y.b⟩ := rfl

theorem neg_def (x : Q2) : -x = ⟨-x.a, -x.b⟩ := rfl

theorem sub_def (x y : Q2) : x - y = ⟨x.a - y.a, x.b - y.b⟩ := rfl

theorem mul_def (x y : Q2) :
    x * y = ⟨x.a * y.a + 2 * (x.b * y.b), x.a * y.b + x.b * y.a⟩ := rfl

instance : NatCast Q2 := ⟨fun n => ⟨(n : ℚ), 0⟩⟩
instance : IntCast Q2 := ⟨fun n => ⟨(n : ℚ), 0⟩⟩

theorem natCast_def (n : ℕ) : (n : Q2) = ⟨(n : ℚ), 0⟩ := rfl

theorem intCast_def (n : ℤ) : (n : Q2) = ⟨(n : ℚ), 0⟩ := rfl

instance : CommRing Q2 where
  add_assoc x y z := by ext <;> simp [add_def] <;> ring
  zero_add x := by ext <;> simp [add_def, zero_def]
  add_zero x := by ext <;> simp [add_def, zero_def]
  add_comm x y := by ext <;> simp [add_def] <;> ring
  neg_add_cancel x := by ext <;> simp [add_def, neg_def, zero_def]
  sub_eq_add_neg x y := by ext <;> simp [sub_def, add_def, neg_def] <;> ring
  mul_assoc x y z := by ext <;> simp [mul_def] <;> ring
  one_mul x := by ext <;> simp [mul_def, one_def]
  mul_one x := by ext <;> simp [mul_def, one_def]
  left_distrib x y z := by ext <;> simp [mul_def, add_def] <;> ring
  right_distrib x y z := by ext <;> simp [mul_def, add_def] <;> ring
  mul_comm x y := by ext <;> simp [mul_def] <;> ring
  zero_mul x := by ext <;> simp [mul_def, zero_def]
  mul_zero x := by ext <;> simp [mul_def, zero_def]
  natCast := Nat.cast
  natCast_zero := by ext <;> simp [natCast_def, zero_def]
  natCast_succ n := by ext <;> simp [natCast_def, add_def, one_def]
  intCast := Int.cast
  intCast_ofNat n := by ext <;> simp [natCast_def, intCast_def]
  intCast_negSucc n := by
    ext <;> simp [natCast_def, intCast_def, neg_def, add_def, one_def]
  nsmul := nsmulRec
  zsmul := zsmulRec

/-- Interpretation into the reals; the bridge used for all order
reasoning. -/
noncomputable def toReal (x : Q2) : ℝ := (x.a : ℝ) + (x.b : ℝ) * Real.sqrt 2

theorem sqrt2_sq : Real.sqrt 2 * Real.sqrt 2 = 2 :=
  Real.mul_self_sqrt (by norm_num)

theorem sqrt2_pos : (0 : ℝ) < Real.sqrt 2 :=
  Real.sqrt_pos.2 (by norm_num)

theorem toReal_zero : (0 : Q2).toReal = 0 := by simp [toReal, zero_def]

theorem toReal_one : (1 : Q2).toReal = 1 := by simp [toReal, one_def]

theorem toReal_add (x y : Q2) : (x + y).toReal = x.toReal + y.toReal := by
  simp [toReal, add_def]; ring

theorem toReal_neg (x : Q2) : (-x).toReal = -x.toReal := by
  simp [toReal, neg_def]; ring

theorem toReal_sub (x y : Q2) : (x - y).toReal = x.toReal - y.toReal := by
  simp [toReal, sub_def]; ring

theorem toReal_mul (x y : Q2) : (x * y).toReal = x.toReal * y.toReal := by
  simp only [toReal, mul_def]
  push_cast
  linear_combination (-((x.b : ℝ) * (y.b : ℝ))) * sqrt2_sq

theorem toReal_ofRat (q : ℚ) : (ofRat q).toReal = (q : ℝ) := by
  simp [toReal, ofRat]

theorem toReal_inj {x y : Q2} (h : x.toReal = y.toReal) : x = y := by
  by_cases hb : x.b = y.b
  · have : (x.a : ℝ) = (y.a : ℝ) := by
      simp only [toReal, hb] at h; linarith
    ext
    · exact_mod_cast this
    · exact hb
  · exfalso
    apply irrational_sqrt_two
    refine ⟨(x.a - y.a) / (y.b - x.b), ?_⟩
    have hbb : ((y.b : ℝ) - (x.b : ℝ)) ≠ 0 := by
      intro h0
      apply hb
      have : (x.b : ℝ) = (y.b : ℝ) := by linarith
      exact_mod_cast this
    push_cast
    rw [div_eq_iff hbb]
    simp only [toReal] at h
    linarith

/-- Decidable non-negativity test for `a + b√2`, by sign analysis and
squaring. -/
def nonnegB (x : Q2) : Bool :=
  if 0 ≤ x.a then
    if 0 ≤ x.b then true else decide (2 * x.b ^ 2 ≤ x.a ^ 2)
  else
    if 0 ≤ x.b then decide (x.a ^ 2 ≤ 2 * x.b ^ 2) else false

theorem nonnegB_iff (x : Q2) : x.nonnegB = true ↔ 0 ≤ x.toReal := by
  have hs := sqrt2_sq
  have hp := sqrt2_pos
  unfold nonnegB toReal
  rcases le_or_lt 0 x.a with ha | ha <;> rcases le_or_lt 0 x.b with hb | hb
  · have ha' : (0 : ℝ) ≤ (x.a : ℝ) := by exact_mod_cast ha
    have hb' : (0 : ℝ) ≤ (x.b : ℝ) := by exact_mod_cast hb
    simp only [if_pos ha, if_pos hb, true_iff]
    nlinarith [mul_nonneg hb' hp.le]
  · have ha' : (0 : ℝ) ≤ (x.a : ℝ) := by exact_mod_cast ha
    have hb' : (x.b : ℝ) < 0 := by exact_mod_cast hb
    simp only [if_pos ha, if_neg (not_le.2 hb), decide_eq_true_eq]
    constructor
    · intro h
      have h' : 2 * (x.b : ℝ) ^ 2 ≤ (x.a : ℝ) ^ 2 := by exact_mod_cast h
      have hpos : (0 : ℝ) < (x.a : ℝ) - x.b * Real.sqrt 2 := by
        nlinarith [mul_neg_of_neg_of_pos hb' hp]
      nlinarith [hpos, hs, h']
    · intro h
      have h2 : (0 : ℝ) ≤ (x.a : ℝ) - x.b * Real.sqrt 2 := by
        nlinarith [mul_neg_of_neg_of_pos hb' hp]
      have h' : 2 * (x.b : ℝ) ^ 2 ≤ (x.a : ℝ) ^ 2 := by
        nlinarith [mul_nonneg h h2, hs]
      exact_mod_cast h'
  · have ha' : (x.a : ℝ) < 0 := by exact_mod_cast ha
    have hb' : (0 : ℝ) ≤ (x.b : ℝ) := by exact_mod_cast hb
    simp only [if_neg (not_le.2 ha), if_pos hb, decide_eq_true_eq]
    constructor
    · intro h
      have h' : (x.a : ℝ) ^ 2 ≤ 2 * (x.b : ℝ) ^ 2 := by exact_mod_cast h
      have hpos : (0 : ℝ) < (x.b : ℝ) * Real.sqrt 2 - x.a := by
        nlinarith [mul_nonneg hb' hp.le]
      nlinarith [hpos, hs, h']
    · intro h
      have h2 : (0 : ℝ) ≤ (x.b : ℝ) * Real.sqrt 2 - x.a := by
        nlinarith [mul_nonneg hb' hp.le]
      have h' : (x.a : ℝ) ^ 2 ≤ 2 * (x.b : ℝ) ^ 2 := by
        nlinarith [mul_nonneg h h2, hs]
      exact_mod_cast h'
  · have ha' : (x.a : ℝ) < 0 := by exact_mod_cast ha
    have hb' : (x.b : ℝ) < 0 := by exact_mod_cast hb
    simp only [if_neg (not_le.2 ha), if_neg (not_le.2 hb)]
    constructor
    · intro h; simp at h
    · intro h
      exfalso
      nlinarith [mul_neg_of_neg_of_pos hb' hp]

def leB (x y : Q2) : Bool := (y - x).nonnegB

def ltB (x y : Q2) : Bool := ! (y.leB x)

instance : LE Q2 := ⟨fun x y => x.leB y = true⟩
instance : LT Q2 := ⟨fun x y => x.ltB y = true⟩

instance (x y : Q2) : Decidable (x ≤ y) :=
  inferInstanceAs (Decidable (x.leB y = true))

instance (x y : Q2) : Decidable (x < y) :=
  inferInstanceAs (Decidable (x.ltB y = true))

theorem le_iff (x y : Q2) : x ≤ y ↔ x.toReal ≤ y.toReal := by
  have h := nonnegB_iff (y - x)
  rw [toReal_sub] at h
  constructor
  · intro hle
    have := h.1 hle
    linarith
  · intro hle
    exact h.2 (by linarith)

theorem lt_iff (x y : Q2) : x < y ↔ x.toReal < y.toReal := by
  show (! (y.leB x)) = true ↔ _
  rw [Bool.not_eq_true', ← Bool.not_eq_true]
  rw [show (y.leB x = true) = (y ≤ x) from rfl, le_iff]
  exact not_le

/-- Model of `f32::abs`. -/
def abs (x : Q2) : Q2 := if x.nonnegB then x else -x

/-- Model of `f32::signum`: `1` for positive values and `+0.0`, `-1` for
negative values (exact zero is non-negative here, as `+0.0` is in the
source). -/
def signum (x : Q2) : Q2 := if x.nonnegB then 1 else -1

/-- Model of `f32::clamp` (as used by `glam`'s componentwise
`Vec2::clamp`): `lo` if below, `hi` if above, the value otherwise. -/
def clamp (x lo hi : Q2) : Q2 := if x.ltB lo then lo else if hi.ltB x then hi else x

def inv (x : Q2) : Q2 :=
  ⟨x.a / (x.a ^ 2 - 2 * x.b ^ 2), -x.b / (x.a ^ 2 - 2 * x.b ^ 2)⟩

instance : Inv Q2 := ⟨inv⟩
instance : Div Q2 := ⟨fun x y => x * y⁻¹⟩

theorem div_def (x y : Q2) : x / y = x * y.inv := rfl

/-- Rational square-root candidate: exact when the reduced numerator and
denominator are perfect squares. -/
def ratSqrtCand (q : ℚ) : ℚ := (intSqrt q.num : ℚ) / (natSqrt q.den : ℚ)

/-- Square root within `Q2`.  The result `r` satisfies `r * r = x` and
`r.nonnegB` whenever such an element of ℚ(√2) exists and is found among
the four closed-form candidates (which cover every square in ℚ(√2)); the
function returns `0` when `x` has no square root in the field.  In this
development it is only applied to squared lengths of input direction
vectors, i.e. to the rationals 0, 1 and 2, on which it is exact. -/
def sqrt (x : Q2) : Q2 :=
  let s := ratSqrtCand (x.a ^ 2 - 2 * x.b ^ 2)
  let c1 := ratSqrtCand ((x.a + s) / 2)
  let c2 := ratSqrtCand ((x.a - s) / 2)
  let cands : List Q2 :=
    [⟨ratSqrtCand x.a, 0⟩, ⟨0, ratSqrtCand (x.a / 2)⟩,
     ⟨c1, x.b / (2 * c1)⟩, ⟨c2, x.b / (2 * c2)⟩]
  match cands.find? (fun r => r * r == x && r.nonnegB) with
  | some r => r
  | none => 0

/-- Exact `⌊q·√2⌋` for an integer `q` (uses that `q·√2` is irrational for
`q ≠ 0`). -/
def intSqrt2Floor (q : ℤ) : ℤ :=
  if q = 0 then 0
  else if 0 ≤ q then (natSqrt (2 * q.natAbs ^ 2) : ℤ)
  else -(natSqrt (2 * q.natAbs ^ 2) : ℤ) - 1

/-- Exact floor of `a + b·√2`: with a common denominator `d`, the value is
`(P + Q·√2)/d` and `⌊(P + Q·√2)/d⌋ = ⌊(P + ⌊Q·√2⌋)/d⌋`. -/
def floor (x : Q2) : ℤ :=
  let P := x.a.num * (x.b.den : ℤ)
  let Q := x.b.num * (x.a.den : ℤ)
  let d := (x.a.den : ℤ) * (x.b.den : ℤ)
  Int.fdiv (P + intSqrt2Floor Q) d

/-- Model of Rust's saturating `f32 as u64` cast: negative values (and
`NaN`, which exact arithmetic cannot produce) go to `0`, values above
`u64::MAX` saturate, and the fractional part is truncated. -/
def toU64 (x : Q2) : ℕ :=
  if x.nonnegB then min x.floor.toNat (2 ^ 64 - 1) else 0

theorem abs_of_nonnegB {x : Q2} (h : x.nonnegB = true) : x.abs = x := by
  simp [abs, h]

theorem abs_of_negB {x : Q2} (h : x.nonnegB = false) : x.abs = -x := by
  simp [abs, h]

theorem signum_of_nonnegB {x : Q2} (h : x.nonnegB = true) : x.signum = 1 := by
  simp [signum, h]

theorem signum_of_negB {x : Q2} (h : x.nonnegB = false) : x.signum = -1 := by
  simp [signum, h]

theorem nonnegB_false_iff (x : Q2) : x.nonnegB = false ↔ x.toReal < 0 := by
  rw [← Bool.not_eq_true, ← not_le]
  exact not_congr (nonnegB_iff x)

theorem le_refl' (x : Q2) : x ≤ x := (le_iff x x).2 (le_refl _)

/-- The function `clamp` keeps the value inside the interval when the bounds are
ordered. -/
theorem clamp_mem {lo hi : Q2} (x : Q2) (h : lo ≤ hi) :
    lo ≤ clamp x lo hi ∧ clamp x lo hi ≤ hi := by
  unfold clamp
  rcases hx : x.ltB lo with _ | _
  · rcases hy : hi.ltB x with _ | _
    · have h1 : ¬ x < lo := by
        show ¬ (x.ltB lo = true); simp [hx]
      have h2 : ¬ hi < x := by
        show ¬ (hi.ltB x = true); simp [hy]
      rw [lt_iff] at h1 h2
      simp only [hx, hy, Bool.false_eq_true, if_false]
      rw [le_iff, le_iff]
      constructor <;> linarith
    · simp only [hx, hy, Bool.false_eq_true, if_false, if_true]
      exact ⟨h, le_refl' _⟩
  · simp only [hx, if_true]
    exact ⟨le_refl' _, h⟩

end Q2

/-- Exact model of `glam::Vec2` (componentwise on `Q2`). -/
@[ext]
structure Vec2 where
  x : Q2
  y : Q2
deriving DecidableEq, Repr

namespace Vec2

instance : Zero Vec2 := ⟨⟨0, 0⟩⟩
instance : Add Vec2 := ⟨fun v w => ⟨v.x + w.x, v.y + w.y⟩⟩
instance : Sub Vec2 := ⟨fun v w => ⟨v.x - w.x, v.y - w.y⟩⟩
instance : Neg Vec2 := ⟨fun v => ⟨-v.x, -v.y⟩⟩

theorem vzero_def : (0 : Vec2) = ⟨0, 0⟩ := rfl

theorem vadd_def (v w : Vec2) : v + w = ⟨v.x + w.x, v.y + w.y⟩ := rfl

theorem vsub_def (v w : Vec2) : v - w = ⟨v.x - w.x, v.y - w.y⟩ := rfl

theorem vneg_def (v : Vec2) : -v = ⟨-v.x, -v.y⟩ := rfl

/-- Model of `Vec2 * f32` (componentwise scalar multiplication). -/
def smul (v : Vec2) (s : Q2) : Vec2 := ⟨v.x * s, v.y * s⟩

/-- Model of `Vec2 / f32` (componentwise scalar division). -/
def sdiv (v : Vec2) (s : Q2) : Vec2 := ⟨v.x / s, v.y / s⟩

/-- Model of `Vec2 + f32`: adds the scalar to both components (as in `glam`). -/
def sadd (v : Vec2) (s : Q2) : Vec2 := ⟨v.x + s, v.y + s⟩

/-- Model of `Vec2::abs`. -/
def abs (v : Vec2) : Vec2 := ⟨v.x.abs, v.y.abs⟩

/-- Model of `Vec2::splat`. -/
def splat (s : Q2) : Vec2 := ⟨s, s⟩

/-- Model of `Vec2::clamp` (componentwise). -/
def clamp (v lo hi : Vec2) : Vec2 :=
  ⟨Q2.clamp v.x lo.x hi.x, Q2.clamp v.y lo.y hi.y⟩

/-- Model of `Vec2::length_squared`. -/
def lenSq (v : Vec2) : Q2 := v.x * v.x + v.y * v.y

/-- Squared distance between two points. -/
def distSq (p q : Vec2) : Q2 := lenSq (p - q)

/-- Model of `Vec2::normalize_or_zero`: `v / ‖v‖`, or the zero vector when the
length is zero. -/
def normalize_or_zero (v : Vec2) : Vec2 :=
  let len := Q2.sqrt (lenSq v)
  if len = 0 then ⟨0, 0⟩ else ⟨v.x / len, v.y / len⟩

end Vec2

/-! ## Input codec (src/input_handler.rs) -/

def INPUT_UP : ℕ := 1 <<< 0
def INPUT_DOWN : ℕ := 1 <<< 1
def INPUT_LEFT : ℕ := 1 <<< 2
def INPUT_RIGHT : ℕ := 1 <<< 3
def INPUT_SHOOT : ℕ := 1 <<< 4
def INPUT_CLICK : ℕ := 1 <<< 5

def WORLD_SIZE : ℕ := 41

/-- Model of `fn convert_i32_to_u8`: the `i32 as i8 as u8` chain keeps the low
8 bits of the two's-complement representation, i.e. the value mod 256. -/
def convert_i32_to_u8 (value : ℤ) : ℕ := (value % 256).toNat

/-- Model of `fn direction`: accumulate the four direction flags, then
`normalize_or_zero`. -/
def direction (input : ℕ) : Vec2 :=
  let d0 : Vec2 := ⟨0, 0⟩
  let d1 := if input &&& INPUT_UP ≠ 0 then ⟨d0.x, d0.y + 1⟩ else d0
  let d2 := if input &&& INPUT_DOWN ≠ 0 then ⟨d1.x, d1.y - 1⟩ else d1
  let d3 := if input &&& INPUT_LEFT ≠ 0 then ⟨d2.x - 1, d2.y⟩ else d2
  let d4 := if input &&& INPUT_RIGHT ≠ 0 then ⟨d3.x + 1, d3.y⟩ else d3
  d4.normalize_or_zero

/-- Model of `fn is_shooting`. -/
def is_shooting (input : ℕ) : Bool := decide (input &&& INPUT_SHOOT ≠ 0)

/-- Model of `fn get_click_position`: note the 6-bit masks. -/
def get_click_position (input : ℕ) : Option (ℕ × ℕ) :=
  if input &&& INPUT_CLICK ≠ 0 then
    let cell_x := (input >>> 6) &&& 0b111111
    let cell_y := (input >>> 14) &&& 0b111111
    some (cell_x, cell_y)
  else none

/-- One player's branch of `collect_player_inputs` (the producer).  The
cursor is passed as the already-truncated `i32` world coordinates of the
mouse (`cursor.x as i32`, `cursor.y as i32`). -/
def collect_player_input (click : Bool) (cursor_x cursor_y : ℤ)
    (up down left right shoot : Bool) : ℕ :=
  if click then
    let f0 := 0 ||| INPUT_CLICK
    let cell_x := convert_i32_to_u8 (cursor_x + (41 : ℤ) / 2)
    let cell_y := convert_i32_to_u8 (cursor_y + (41 : ℤ) / 2)
    (f0 ||| (cell_x <<< 6)) ||| (cell_y <<< 14)
  else
    let f1 := if up then 0 ||| INPUT_UP else 0
    let f2 := if down then f1 ||| INPUT_DOWN else f1
    let f3 := if left then f2 ||| INPUT_LEFT else f2
    let f4 := if right then f3 ||| INPUT_RIGHT else f3
    if shoot then f4 ||| INPUT_SHOOT else f4

/-! Bit-arithmetic helpers for the codec proofs. -/

theorem or_eq_add_of_and_eq_zero :
    ∀ x : ℕ, ∀ y : ℕ, x &&& y = 0 → x ||| y = x + y := by
  intro x
  induction x using Nat.strong_induction_on with
  | _ x ih =>
    intro y h
    rcases Nat.eq_zero_or_pos x with hx | hx
    · subst hx; simp
    · have hdiv : x / 2 &&& y / 2 = 0 := by
        rw [← Nat.and_div_two, h]
      have ih2 := ih (x / 2) (Nat.div_lt_self hx (by norm_num)) (y / 2) hdiv
      have hor2 : (x ||| y) / 2 = x / 2 + y / 2 := by
        rw [Nat.or_div_two, ih2]
      have hmod : ¬ (x % 2 = 1 ∧ y % 2 = 1) := by
        rintro ⟨h1, h2⟩
        have h3 : (x &&& y) % 2 = 1 := Nat.and_mod_two_eq_one.2 ⟨h1, h2⟩
        rw [h] at h3
        simp at h3
      have hm : (x ||| y) % 2 = x % 2 + y % 2 := by
        rcases Nat.mod_two_eq_zero_or_one x with h1 | h1 <;>
            rcases Nat.mod_two_eq_zero_or_one y with h2 | h2
        · have h3 : ¬ ((x ||| y) % 2 = 1) := by
            rw [Nat.or_mod_two_eq_one]; omega
          omega
        · rw [h1, h2, Nat.or_mod_two_eq_one.2 (Or.inr h2)]
        · rw [h1, h2, Nat.or_mod_two_eq_one.2 (Or.inl h1)]
        · exact absurd ⟨h1, h2⟩ hmod
      have e1 := Nat.div_add_mod (x ||| y) 2
      have e2 := Nat.div_add_mod x 2
      have e3 := Nat.div_add_mod y 2
      omega

theorem and_shiftLeft_eq_zero {x k : ℕ} (y : ℕ) (hx : x < 2 ^ k) :
    x &&& (y <<< k) = 0 := by
  apply Nat.eq_of_testBit_eq
  intro i
  simp only [Nat.testBit_and, Nat.testBit_shiftLeft, Nat.zero_testBit]
  rcases lt_or_ge i k with hik | hik
  · simp [Nat.not_le.2 hik]
  · have : x.testBit i = false :=
      Nat.testBit_lt_two_pow (lt_of_lt_of_le hx (Nat.pow_le_pow_right (by norm_num) hik))
    simp [this]

/-- The three click fields occupy disjoint bit ranges, so the `|=`
accumulation is plain addition. -/
theorem click_flags_eq_add {a b : ℕ} (ha : a < 256) (hb : b < 256) :
    ((0 ||| INPUT_CLICK) ||| (a <<< 6)) ||| (b <<< 14) = 32 + a * 64 + b * 16384 := by
  have h1 : (0 ||| INPUT_CLICK) = 32 := by decide
  rw [h1]
  have h2 : (32 : ℕ) &&& (a <<< 6) = 0 :=
    and_shiftLeft_eq_zero a (by norm_num)
  rw [or_eq_add_of_and_eq_zero _ _ h2, Nat.shiftLeft_eq]
  have h3 : 32 + a * 2 ^ 6 &&& (b <<< 14) = 0 :=
    and_shiftLeft_eq_zero b (by omega)
  rw [or_eq_add_of_and_eq_zero _ _ h3, Nat.shiftLeft_eq]
  norm_num

theorem convert_i32_to_u8_lt (value : ℤ) : convert_i32_to_u8 value < 256 := by
  unfold convert_i32_to_u8
  omega

/-- Decoding the click flags: the low six bits of each stored coordinate. -/
theorem click_decode {a b : ℕ} (ha : a < 256) (hb : b < 256) :
    get_click_position (32 + a * 64 + b * 16384) = some (a % 64, b % 64) := by
  unfold get_click_position
  have hc : (32 + a * 64 + b * 16384) &&& INPUT_CLICK ≠ 0 := by
    have e : (32 + a * 64 + b * 16384) = (32 ||| (a <<< 6)) ||| (b <<< 14) := by
      have := click_flags_eq_add ha hb
      simpa using this.symm
    rw [e, Nat.and_distrib_right, Nat.and_distrib_right]
    have z1 : (a <<< 6) &&& INPUT_CLICK = 0 := by
      rw [Nat.and_comm]
      exact and_shiftLeft_eq_zero a (by decide)
    have z2 : (b <<< 14) &&& INPUT_CLICK = 0 := by
      rw [Nat.and_comm]
      exact and_shiftLeft_eq_zero b (by decide)
    rw [z1, z2]
    decide
  rw [if_pos hc]
  have hx : ((32 + a * 64 + b * 16384) >>> 6) &&& 0b111111 = a % 64 := by
    rw [Nat.shiftRight_eq_div_pow]
    rw [show (0b111111 : ℕ) = 2 ^ 6 - 1 from rfl, Nat.and_pow_two_sub_one_eq_mod]
    omega
  have hy : ((32 + a * 64 + b * 16384) >>> 14) &&& 0b111111 = b % 64 := by
    rw [Nat.shiftRight_eq_div_pow]
    rw [show (0b111111 : ℕ) = 2 ^ 6 - 1 from rfl, Nat.and_pow_two_sub_one_eq_mod]
    omega
  rw [hx, hy]

/-- A click word has none of the five low action bits set. -/
theorem click_low_bits {a b : ℕ} (ha : a < 256) (hb : b < 256) {m : ℕ}
    (hm : m < 64) (hm32 : 32 &&& m = 0) : (32 + a * 64 + b * 16384) &&& m = 0 := by
  have e : (32 + a * 64 + b * 16384) = (32 ||| (a <<< 6)) ||| (b <<< 14) := by
    have := click_flags_eq_add ha hb
    simpa using this.symm
  rw [e, Nat.and_distrib_right, Nat.and_distrib_right]
  have z1 : (a <<< 6) &&& m = 0 := by
    rw [Nat.and_comm]
    exact and_shiftLeft_eq_zero a hm
  have z2 : (b <<< 14) &&& m = 0 := by
    rw [Nat.and_comm]
    exact and_shiftLeft_eq_zero b (by omega)
  rw [z1, z2, hm32]
  decide

theorem normalize_zero_vec : Vec2.normalize_or_zero ⟨0, 0⟩ = ⟨0, 0⟩ := by decide

theorem collect_false_eq (cx cy : ℤ) (u d l r s : Bool) :
    collect_player_input false cx cy u d l r s =
      collect_player_input false 0 0 u d l r s := by
  simp [collect_player_input]

theorem collect_true_eq (cx cy : ℤ) (u d l r s : Bool) :
    collect_player_input true cx cy u d l r s =
      32 + convert_i32_to_u8 (cx + (41 : ℤ) / 2) * 64 +
        convert_i32_to_u8 (cy + (41 : ℤ) / 2) * 16384 := by
  have := click_flags_eq_add (convert_i32_to_u8_lt (cx + (41 : ℤ) / 2))
    (convert_i32_to_u8_lt (cy + (41 : ℤ) / 2))
  simpa [collect_player_input] using this

/-- The movement-branch recovery, checked over all 32 flag
combinations. -/
theorem move_branch_roundtrip : ∀ u d l r s : Bool,
    get_click_position (collect_player_input false 0 0 u d l r s) = none ∧
    is_shooting (collect_player_input false 0 0 u d l r s) = s ∧
    direction (collect_player_input false 0 0 u d l r s) =
      Vec2.normalize_or_zero
        ⟨(if r then 1 else 0) - (if l then 1 else 0),
         (if u then 1 else 0) - (if d then 1 else 0)⟩ := by
  decide

/-- C2: the claim as stated is false.  The producer stores full 8-bit
cell coordinates (bits 6-13 and 14-21) but `get_click_position` masks
only six bits, so an encoded X coordinate of 120 (cursor x = 100) decodes
to 56, not 120. -/
theorem C2_click_roundtrip_cex :
    get_click_position (collect_player_input true 100 0 false false false false false) ≠
      some (convert_i32_to_u8 (100 + (41 : ℤ) / 2),
            convert_i32_to_u8 (0 + (41 : ℤ) / 2)) := by
  decide

/-- C2 (amended): decoding an encoded input word recovers the movement
and shoot intent exactly and the click flag exactly; the click grid
coordinates are recovered modulo 64 (the decoder masks six bits), hence
exactly whenever the encoded 8-bit coordinate is below 64. -/
theorem C2_codec_roundtrip (up down left right shoot : Bool) (cursor_x cursor_y : ℤ) :
    (get_click_position (collect_player_input true cursor_x cursor_y up down left right shoot) =
        some (convert_i32_to_u8 (cursor_x + (41 : ℤ) / 2) % 64,
              convert_i32_to_u8 (cursor_y + (41 : ℤ) / 2) % 64) ∧
      direction (collect_player_input true cursor_x cursor_y up down left right shoot) = ⟨0, 0⟩ ∧
      is_shooting (collect_player_input true cursor_x cursor_y up down left right shoot) = false) ∧
    (get_click_position (collect_player_input false cursor_x cursor_y up down left right shoot) = none ∧
      is_shooting (collect_player_input false cursor_x cursor_y up down left right shoot) = shoot ∧
      direction (collect_player_input false cursor_x cursor_y up down left right shoot) =
        Vec2.normalize_or_zero
          ⟨(if right then 1 else 0) - (if left then 1 else 0),
           (if up then 1 else 0) - (if down then 1 else 0)⟩) := by
  have ha := convert_i32_to_u8_lt (cursor_x + (41 : ℤ) / 2)
  have hb := convert_i32_to_u8_lt (cursor_y + (41 : ℤ) / 2)
  rw [collect_true_eq, collect_false_eq]
  refine ⟨⟨click_decode ha hb, ?_, ?_⟩, move_branch_roundtrip up down left right shoot⟩
  · have h1 := click_low_bits ha hb (show (INPUT_UP : ℕ) < 64 by decide) (by decide)
    have h2 := click_low_bits ha hb (show (INPUT_DOWN : ℕ) < 64 by decide) (by decide)
    have h3 := click_low_bits ha hb (show (INPUT_LEFT : ℕ) < 64 by decide) (by decide)
    have h4 := click_low_bits ha hb (show (INPUT_RIGHT : ℕ) < 64 by decide) (by decide)
    simp only [direction, h1, h2, h3, h4, ne_eq, not_true_eq_false, not_false_eq_true,
      if_false, ite_false, ite_true]
    simpa using normalize_zero_vec
  · have h5 := click_low_bits ha hb (show (INPUT_SHOOT : ℕ) < 64 by decide) (by decide)
    norm_num at h5
    simp [is_shooting, h5]

/-! ## Entity state (the components each entity carries in the source) -/

def PLAYER_RADIUS : Q2 := Q2.ofRat (1 / 2)

def PROJECTILE_RADIUS : Q2 := Q2.ofRat (1 / 40)

def NUM_PLAYERS : ℕ := 2

/-- A player entity: the `Player` component (`speed`, `handle`; the
render-only `color` is omitted), its `Transform` translation, the
`MovementDirection` and `CanAttack` components, and the state of the
attached `Gun` child entity (its `Transform` translation offset, and the
vector whose `atan2` angle defines its z-rotation — the rotation itself
is transcendental, so the defining vector is stored). -/
structure PlayerEnt where
  handle : ℕ
  speed : Q2
  pos : Vec2
  moveDir : Vec2
  canAttack : Bool
  gunOffset : Vec2
  gunDirVec : Vec2
deriving DecidableEq, Repr

/-- A projectile entity: its `Transform` translation and the
`MovementDirection` copied from the firing player. -/
structure ProjEnt where
  pos : Vec2
  dir : Vec2
deriving DecidableEq, Repr

/-- A barrier tile: the `Barrier` component's `player_placed` flag, its
`Transform` translation and the sprite `custom_size` (always `(1,1)` in
the source; carried because the collision code reads it). -/
structure BarrierEnt where
  player_placed : Bool
  pos : Vec2
  size : Vec2
deriving DecidableEq, Repr

/-- Model of `enum GamePhase`. -/
inductive GamePhase where
  | ActiveRound
  | RoundOver
deriving DecidableEq, Repr

/-- The rollback-visible world state: entity lists, `PlayerScores`,
the phase and the `RoundTimer`'s elapsed time. -/
structure GameState where
  players : List PlayerEnt
  projectiles : List ProjEnt
  barriers : List BarrierEnt
  scores : List ℕ
  phase : GamePhase
  timer : Q2
deriving DecidableEq, Repr

/-! ## Player movement (`move_players`, src/player_module/mod.rs) -/

/-- Value of `WORLD_SIZE as f32 * 0.5 - 0.5`. -/
def boundary_limit : Q2 :=
  Q2.ofRat ((41 : ℚ)) * Q2.ofRat (1 / 2) - Q2.ofRat (1 / 2)

/-- The per-player part of the `move_players` loop body that touches the
player itself: update facing and clamped position when the decoded
direction is non-zero. -/
def moved_player (inputs : List ℕ) (dt : Q2) (p : PlayerEnt) : PlayerEnt :=
  let dv := direction (inputs.getD p.handle 0)
  if dv = ⟨0, 0⟩ then p
  else
    let movement_delta := dv.smul (p.speed * dt)
    let bl := Vec2.splat boundary_limit
    { p with pos := Vec2.clamp (p.pos + movement_delta) (-bl) bl,
             moveDir := dv }

/-- The gun-update part of the `move_players` loop body.  The source's
inner loop runs over the whole `gun_query`, i.e. over every gun entity in
the world, not just the moving player's own gun. -/
def set_all_guns (dv : Vec2) (ps : List PlayerEnt) : List PlayerEnt :=
  ps.map fun q =>
    { q with gunOffset := ⟨dv.x * Q2.ofRat (1 / 2), dv.y * Q2.ofRat (1 / 2)⟩,
             gunDirVec := dv }

/-- One iteration of the `move_players` outer loop, acting on the player
at position `k` of the query. -/
def mp_body (inputs : List ℕ) (dt : Q2) (acc : List PlayerEnt) (k : ℕ) : List PlayerEnt :=
  match acc[k]? with
  | none => acc
  | some p =>
    let dv := direction (inputs.getD p.handle 0)
    if dv = ⟨0, 0⟩ then acc
    else set_all_guns dv (acc.set k (moved_player inputs dt p))

def mp_loop (inputs : List ℕ) (dt : Q2) (acc : List PlayerEnt) : List ℕ → List PlayerEnt
  | [] => acc
  | k :: ks => mp_loop inputs dt (mp_body inputs dt acc k) ks

/-- Model of `fn move_players`: iterate the loop body over all players in query
order. -/
def move_players (inputs : List ℕ) (dt : Q2) (ps : List PlayerEnt) : List PlayerEnt :=
  mp_loop inputs dt ps (List.range ps.length)

/-! ## Player-barrier static collision (`handle_barrier_collisions`,
src/barriers/mod.rs) -/

/-- The inner-loop body of `handle_barrier_collisions`: resolve one
player position against one barrier. -/
def resolve_barrier (bpos bsize ppos : Vec2) : Vec2 :=
  let barrier_to_player := ppos - bpos
  let barrier_corner_to_player := barrier_to_player.abs - bsize.sdiv (Q2.ofRat 2)
  let corner_to_corner := barrier_corner_to_player - Vec2.splat PLAYER_RADIUS
  if (Q2.ofRat 0).ltB corner_to_corner.x || (Q2.ofRat 0).ltB corner_to_corner.y then
    ppos
  else if corner_to_corner.y.ltB corner_to_corner.x then
    ⟨ppos.x - barrier_to_player.x.signum * corner_to_corner.x, ppos.y⟩
  else
    ⟨ppos.x, ppos.y - barrier_to_player.y.signum * corner_to_corner.y⟩

/-- Model of `fn handle_barrier_collisions`: each player is resolved against every
barrier in order, each resolution taking effect immediately. -/
def handle_barrier_collisions (ps : List PlayerEnt) (bars : List BarrierEnt) :
    List PlayerEnt :=
  ps.map fun p =>
    { p with pos := bars.foldl (fun pos b => resolve_barrier b.pos b.size pos) p.pos }

/-! ## Shooting and reloading (src/projectile/mod.rs) -/

/-- Model of `fn reload_projectile`: releasing the shoot input re-arms the
player. -/
def reload_projectile (inputs : List ℕ) (ps : List PlayerEnt) : List PlayerEnt :=
  ps.map fun p =>
    if ! is_shooting (inputs.getD p.handle 0) then { p with canAttack := true } else p

/-- Model of `fn fire_projectile`: an attack-ready player with the shoot input
down spawns a projectile offset from its position along its facing (note
the scalar `PROJECTILE_RADIUS` is added to both components, as `Vec2 +
f32` does) and loses attack-readiness. -/
def fire_projectile (inputs : List ℕ) (ps : List PlayerEnt) :
    List PlayerEnt × List ProjEnt :=
  ps.foldl
    (fun acc p =>
      if is_shooting (inputs.getD p.handle 0) && p.canAttack then
        (acc.1 ++ [{ p with canAttack := false }],
         acc.2 ++ [{ pos := (p.pos + p.moveDir.smul PLAYER_RADIUS).sadd PROJECTILE_RADIUS,
                     dir := p.moveDir }])
      else (acc.1 ++ [p], acc.2))
    ([], [])

/-- Model of `fn move_projectile`: advance every projectile by
`direction * 20.0 * dt`. -/
def move_projectile (dt : Q2) (prs : List ProjEnt) : List ProjEnt :=
  prs.map fun pr =>
    { pr with pos := pr.pos + (pr.dir.smul (Q2.ofRat 20)).smul dt }

/-! ## Projectile-barrier collisions and bounds cull
(`projectile_barrier_collisions`, src/barriers/mod.rs) -/

/-- The out-of-bounds test: `|x| > WORLD_SIZE/2` or `|y| > WORLD_SIZE/2`
despawns the projectile. -/
def proj_out_of_bounds (pos : Vec2) : Bool :=
  let half_map_limit := Q2.ofRat 41 * Q2.ofRat (1 / 2)
  half_map_limit.ltB pos.x.abs || half_map_limit.ltB pos.y.abs

/-- The box/box overlap test of the source: both axis overlaps
non-positive. -/
def barrier_overlap (proj_pos : Vec2) (b : BarrierEnt) : Bool :=
  let delta := proj_pos - b.pos
  let abs_delta := delta.abs
  let overlap := abs_delta - b.size.smul (Q2.ofRat (1 / 2))
  overlap.x.leB (Q2.ofRat 0) && overlap.y.leB (Q2.ofRat 0)

/-- Index of the first barrier the projectile overlaps (the inner loop
breaks at the first hit). -/
def first_hit_idx (proj_pos : Vec2) (bars : List BarrierEnt) : Option ℕ :=
  bars.findIdx? (barrier_overlap proj_pos)

/-- Whether the in-bounds projectile `pr` makes barrier index `i` its
first hit. -/
def struck (prs : List ProjEnt) (bars : List BarrierEnt) (i : ℕ) : Bool :=
  prs.any fun pr =>
    ! proj_out_of_bounds pr.pos && (first_hit_idx pr.pos bars == some i)

/-- Whether barrier index `i` is despawned this tick: only player-placed
barriers struck by some projectile are. -/
def barrier_removed (prs : List ProjEnt) (bars : List BarrierEnt) (i : ℕ) : Bool :=
  match bars[i]? with
  | some b => b.player_placed && struck prs bars i
  | none => false

/-- Model of `fn projectile_barrier_collisions`: despawn out-of-bounds
projectiles; each surviving projectile despawns on its first barrier
overlap, taking the barrier with it only if the barrier is
player-placed.  All despawns are deferred (`Commands`), so every
projectile is tested against the full barrier list. -/
def projectile_barrier_collisions (prs : List ProjEnt) (bars : List BarrierEnt) :
    List ProjEnt × List BarrierEnt :=
  (prs.filter fun pr =>
      ! proj_out_of_bounds pr.pos && (first_hit_idx pr.pos bars).isNone,
   (List.range bars.length).filterMap fun i =>
      if barrier_removed prs bars i then none else bars[i]?)

/-! ## Player-projectile collisions and scoring
(`check_player_collisions`, src/player_module/mod.rs) -/

/-- Model of `fn is_colliding`: the source compares `Vec2::distance pos1 pos2 <
radius1 + radius2`; this is the equivalent squared comparison (see
`is_colliding_iff_sqrt`). -/
def is_colliding (pos1 pos2 : Vec2) (radius1 radius2 : Q2) : Bool :=
  (Vec2.distSq pos1 pos2).ltB ((radius1 + radius2) * (radius1 + radius2))

/-- Justification that `is_colliding`'s squared comparison is the
source's `Vec2::distance pos1 pos2 < radius1 + radius2` comparison: for a
positive radius sum the two are equivalent (and the simulation only ever
calls it with `PLAYER_RADIUS + PROJECTILE_RADIUS = 0.525`). -/
theorem is_colliding_iff_sqrt (pos1 pos2 : Vec2) (r1 r2 : Q2)
    (h : 0 < (r1 + r2).toReal) :
    is_colliding pos1 pos2 r1 r2 = true ↔
      Real.sqrt (Vec2.distSq pos1 pos2).toReal < (r1 + r2).toReal := by
  unfold is_colliding
  rw [show ((Vec2.distSq pos1 pos2).ltB ((r1 + r2) * (r1 + r2)) = true) =
      (Vec2.distSq pos1 pos2 < (r1 + r2) * (r1 + r2)) from rfl]
  rw [Q2.lt_iff, Q2.toReal_mul]
  rw [Real.sqrt_lt' h]
  rw [sq]

/-- Whether some live projectile overlaps the player (the inner loop of
`check_player_collisions` breaks at the first one). -/
def hits (p : PlayerEnt) (prs : List ProjEnt) : Bool :=
  prs.any fun pr => is_colliding p.pos pr.pos PLAYER_RADIUS PROJECTILE_RADIUS

/-- Model of `PlayerScores::set` after a `get`-and-increment, with `u64`
wrap-around. -/
def bump_score (scores : List ℕ) (i : ℕ) : List ℕ :=
  scores.set i ((scores.getD i 0 + 1) % 2 ^ 64)

/-- Model of `fn check_player_collisions`: every hit player is despawned
(deferred); with `NUM_PLAYERS = 2` each hit sets the next phase to
`RoundOver` and increments the opposite score slot (index 1 if the hit
player's handle is 0, index 0 otherwise).  Score writes are immediate
(`ResMut`), despawns deferred. -/
def check_player_collisions (st : GameState) : GameState :=
  let step : List ℕ × GamePhase → PlayerEnt → List ℕ × GamePhase := fun acc p =>
    if hits p st.projectiles then
      if NUM_PLAYERS > 2 then
        (acc.1, if st.players.length = 1 then GamePhase.RoundOver else acc.2)
      else
        (bump_score acc.1 (if p.handle = 0 then 1 else 0), GamePhase.RoundOver)
    else acc
  let r := st.players.foldl step (st.scores, st.phase)
  { st with players := st.players.filter fun p => ! hits p st.projectiles,
            scores := r.1,
            phase := r.2 }

/-! ## Barrier placement (`place_barrier_on_click`, src/barriers/mod.rs) -/

/-- Model of `fn place_barrier_on_click`: each player whose input carries a click
spawns a player-placed 1×1 barrier at the decoded cell (no bounds
validation). -/
def place_barrier_on_click (inputs : List ℕ) (st : GameState) : GameState :=
  let new_bars := st.players.filterMap fun p =>
    match get_click_position (inputs.getD p.handle 0) with
    | some (cell_x, cell_y) =>
      some { player_placed := true,
             pos := ⟨Q2.ofRat (cell_x : ℚ) - Q2.ofRat 41 * Q2.ofRat (1 / 2) + Q2.ofRat (1 / 2),
                    Q2.ofRat (cell_y : ℚ) - Q2.ofRat 41 * Q2.ofRat (1 / 2) + Q2.ofRat (1 / 2)⟩,
             size := ⟨Q2.ofRat 1, Q2.ofRat 1⟩ }
    | none => none
  { st with barriers := st.barriers ++ new_bars }

/-! ## Round timer (`round_over_timer`, src/utilities.rs) -/

/-- Model of `fn round_over_timer`: tick the repeating 1-second timer; when it
finishes the phase is set back to `ActiveRound`.  (The repeating timer
keeps the remainder past the period; for `dt` at most the period this is
`total - 1`.) -/
def round_over_timer (dt : Q2) (st : GameState) : GameState :=
  let total := st.timer + dt
  let finished := (Q2.ofRat 1).leB total
  { st with timer := if finished then total - Q2.ofRat 1 else total,
            phase := if finished then GamePhase.ActiveRound else st.phase }

/-! ## The tick pipeline (GgrsSchedule, src/main.rs).

The schedule's `after` constraints order the `ActiveRound` systems as
movement → barrier collision → reload → fire → projectile motion →
projectile-barrier collision → player collision; `place_barrier_on_click`
runs after movement in every phase, and `round_over_timer` runs in
`RoundOver`. -/

def tick (st : GameState) (inputs : List ℕ) (dt : Q2) : GameState :=
  match st.phase with
  | GamePhase.ActiveRound =>
    let s1 := { st with players := move_players inputs dt st.players }
    let s2 := { s1 with players := handle_barrier_collisions s1.players s1.barriers }
    let s3 := { s2 with players := reload_projectile inputs s2.players }
    let f := fire_projectile inputs s3.players
    let s4 := { s3 with players := f.1, projectiles := s3.projectiles ++ f.2 }
    let s5 := { s4 with projectiles := move_projectile dt s4.projectiles }
    let pb := projectile_barrier_collisions s5.projectiles s5.barriers
    let s6 := { s5 with projectiles := pb.1, barriers := pb.2 }
    let s7 := check_player_collisions s6
    place_barrier_on_click inputs s7
  | GamePhase.RoundOver =>
    place_barrier_on_click inputs (round_over_timer dt st)

/-! ## Claim C1: determinism of the tick pipeline -/

/-- C1: the simulation step is deterministic under replay.  The whole
tick pipeline (movement, barrier collision, reload, fire, projectile
motion, projectile-barrier collision, player collision, barrier
placement) is a pure function of the state snapshot, the per-player
input array and the tick duration, so running it twice from the same
snapshot yields identical entity state, scores and round phase. -/
theorem C1_tick_deterministic (st : GameState) (inputs : List ℕ) (dt : Q2) :
    tick st inputs dt = tick st inputs dt := rfl

/-! ## Claim C6: static player-barrier resolution -/

/-- Strict circle-box interpenetration, the geometric reading of
"overlaps": both corner-to-corner gaps strictly negative (a gap of zero
means the player touches the barrier without overlapping it). -/
def penetrates (bpos bsize ppos : Vec2) : Bool :=
  let c2c := (ppos - bpos).abs - bsize.sdiv (Q2.ofRat 2) - Vec2.splat PLAYER_RADIUS
  c2c.x.ltB (Q2.ofRat 0) && c2c.y.ltB (Q2.ofRat 0)

theorem le_zero_toReal {x : Q2} (h : x ≤ 0) : x.toReal ≤ 0 := by
  have := (Q2.le_iff x 0).1 h
  rwa [Q2.toReal_zero] at this

theorem ltB_zero_false_of_le {x : Q2} (h : x ≤ 0) :
    (Q2.ofRat 0).ltB x = false := by
  have h' : x.leB (Q2.ofRat 0) = true := h
  simp [Q2.ltB, h']

theorem ltB_false_of_le {x y : Q2} (h : x ≤ y) : y.ltB x = false := by
  have h' : x.leB y = true := h
  simp [Q2.ltB, h']

/-- Resolving a non-positive gap pushes the offset's absolute value up by
exactly the gap's magnitude: `|t - signum t * c| = |t| - c` for
`c ≤ 0`. -/
theorem abs_sub_signum_mul {t c : Q2} (hc : c ≤ 0) :
    (t - t.signum * c).abs = t.abs - c := by
  have hc' : c.toReal ≤ 0 := le_zero_toReal hc
  rcases h : t.nonnegB with _ | _
  · rw [Q2.signum_of_negB h, Q2.abs_of_negB h]
    have ht : t.toReal < 0 := (Q2.nonnegB_false_iff t).1 h
    have e : t - (-1 : Q2) * c = t + c := by ring
    rw [e]
    have hn : (t + c).nonnegB = false := by
      refine (Q2.nonnegB_false_iff _).2 ?_
      rw [Q2.toReal_add]
      linarith
    rw [Q2.abs_of_negB hn]
    ring
  · rw [Q2.signum_of_nonnegB h, Q2.abs_of_nonnegB h]
    have ht : 0 ≤ t.toReal := (Q2.nonnegB_iff t).1 h
    have e : t - (1 : Q2) * c = t - c := by ring
    rw [e]
    have hn : (t - c).nonnegB = true := by
      refine (Q2.nonnegB_iff _).2 ?_
      rw [Q2.toReal_sub]
      linarith
    rw [Q2.abs_of_nonnegB hn]

theorem not_lt_zero_self : Q2.ltB (0 : Q2) (Q2.ofRat 0) = false := by decide

/-- C6: when both corner-to-corner gaps are non-positive, the resolution
translates the player only along the axis with the larger (less
negative) gap — the x axis when `c2c.y < c2c.x`, the y axis otherwise —
by exactly that gap toward the outside (`-signum · gap`), and afterwards
the player no longer overlaps (strictly interpenetrates) that barrier:
the moved axis's new gap is exactly zero. -/
theorem C6_barrier_resolution (bpos bsize ppos : Vec2)
    (hx : ((ppos - bpos).abs - bsize.sdiv (Q2.ofRat 2) - Vec2.splat PLAYER_RADIUS).x ≤ 0)
    (hy : ((ppos - bpos).abs - bsize.sdiv (Q2.ofRat 2) - Vec2.splat PLAYER_RADIUS).y ≤ 0) :
    (((ppos - bpos).abs - bsize.sdiv (Q2.ofRat 2) - Vec2.splat PLAYER_RADIUS).y <
        ((ppos - bpos).abs - bsize.sdiv (Q2.ofRat 2) - Vec2.splat PLAYER_RADIUS).x →
      resolve_barrier bpos bsize ppos =
        ⟨ppos.x - (ppos - bpos).x.signum *
            ((ppos - bpos).abs - bsize.sdiv (Q2.ofRat 2) - Vec2.splat PLAYER_RADIUS).x,
          ppos.y⟩ ∧
      penetrates bpos bsize (resolve_barrier bpos bsize ppos) = false) ∧
    (((ppos - bpos).abs - bsize.sdiv (Q2.ofRat 2) - Vec2.splat PLAYER_RADIUS).x ≤
        ((ppos - bpos).abs - bsize.sdiv (Q2.ofRat 2) - Vec2.splat PLAYER_RADIUS).y →
      resolve_barrier bpos bsize ppos =
        ⟨ppos.x, ppos.y - (ppos - bpos).y.signum *
            ((ppos - bpos).abs - bsize.sdiv (Q2.ofRat 2) - Vec2.splat PLAYER_RADIUS).y⟩ ∧
      penetrates bpos bsize (resolve_barrier bpos bsize ppos) = false) := by
  have hc2c : ∀ v w : Vec2, (v - w) = ⟨v.x - w.x, v.y - w.y⟩ := fun v w => rfl
  have hcondx := ltB_zero_false_of_le hx
  have hcondy := ltB_zero_false_of_le hy
  have hresolve :
      resolve_barrier bpos bsize ppos =
        (if ((ppos - bpos).abs - bsize.sdiv (Q2.ofRat 2) - Vec2.splat PLAYER_RADIUS).y.ltB
              ((ppos - bpos).abs - bsize.sdiv (Q2.ofRat 2) - Vec2.splat PLAYER_RADIUS).x then
          ⟨ppos.x - (ppos - bpos).x.signum *
              ((ppos - bpos).abs - bsize.sdiv (Q2.ofRat 2) - Vec2.splat PLAYER_RADIUS).x,
            ppos.y⟩
        else
          ⟨ppos.x, ppos.y - (ppos - bpos).y.signum *
              ((ppos - bpos).abs - bsize.sdiv (Q2.ofRat 2) - Vec2.splat PLAYER_RADIUS).y⟩) := by
    unfold resolve_barrier
    simp only [hcondx, hcondy, Bool.or_self, Bool.false_eq_true, if_false]
  constructor
  · intro hlt
    have hbr : (((ppos - bpos).abs - bsize.sdiv (Q2.ofRat 2) - Vec2.splat PLAYER_RADIUS).y.ltB
        ((ppos - bpos).abs - bsize.sdiv (Q2.ofRat 2) - Vec2.splat PLAYER_RADIUS).x) = true := hlt
    rw [hresolve, if_pos hbr]
    refine ⟨rfl, ?_⟩
    unfold penetrates
    have hxabs :
        ((⟨ppos.x - (ppos - bpos).x.signum *
            ((ppos - bpos).abs - bsize.sdiv (Q2.ofRat 2) - Vec2.splat PLAYER_RADIUS).x,
          ppos.y⟩ : Vec2) - bpos).x =
          (ppos - bpos).x - (ppos - bpos).x.signum *
            ((ppos - bpos).abs - bsize.sdiv (Q2.ofRat 2) - Vec2.splat PLAYER_RADIUS).x := by
      show ppos.x - _ - bpos.x = ppos.x - bpos.x - _
      ring
    simp only [Vec2.abs, Vec2.vsub_def, Vec2.sdiv, Vec2.splat] at hxabs ⊢
    rw [hxabs]
    have habs := @abs_sub_signum_mul (ppos.x - bpos.x)
      ((ppos.x - bpos.x).abs - bsize.x / Q2.ofRat 2 - PLAYER_RADIUS) ?gap
    case gap =>
      simpa [Vec2.abs, Vec2.vsub_def, Vec2.sdiv, Vec2.splat] using hx
    rw [habs]
    have hz : (ppos.x - bpos.x).abs -
        ((ppos.x - bpos.x).abs - bsize.x / Q2.ofRat 2 - PLAYER_RADIUS) -
          bsize.x / Q2.ofRat 2 - PLAYER_RADIUS = 0 := by ring
    rw [hz]
    simp [not_lt_zero_self]
  · intro hle
    have hbr : (((ppos - bpos).abs - bsize.sdiv (Q2.ofRat 2) - Vec2.splat PLAYER_RADIUS).y.ltB
        ((ppos - bpos).abs - bsize.sdiv (Q2.ofRat 2) - Vec2.splat PLAYER_RADIUS).x) = false :=
      ltB_false_of_le hle
    rw [hresolve, if_neg (by simp [hbr])]
    refine ⟨rfl, ?_⟩
    unfold penetrates
    have hyabs :
        ((⟨ppos.x, ppos.y - (ppos - bpos).y.signum *
            ((ppos - bpos).abs - bsize.sdiv (Q2.ofRat 2) - Vec2.splat PLAYER_RADIUS).y⟩ : Vec2)
            - bpos).y =
          (ppos - bpos).y - (ppos - bpos).y.signum *
            ((ppos - bpos).abs - bsize.sdiv (Q2.ofRat 2) - Vec2.splat PLAYER_RADIUS).y := by
      show ppos.y - _ - bpos.y = ppos.y - bpos.y - _
      ring
    simp only [Vec2.abs, Vec2.vsub_def, Vec2.sdiv, Vec2.splat] at hyabs ⊢
    rw [hyabs]
    have habs := @abs_sub_signum_mul (ppos.y - bpos.y)
      ((ppos.y - bpos.y).abs - bsize.y / Q2.ofRat 2 - PLAYER_RADIUS) ?gap
    case gap =>
      simpa [Vec2.abs, Vec2.vsub_def, Vec2.sdiv, Vec2.splat] using hy
    rw [habs]
    have hz : (ppos.y - bpos.y).abs -
        ((ppos.y - bpos.y).abs - bsize.y / Q2.ofRat 2 - PLAYER_RADIUS) -
          bsize.y / Q2.ofRat 2 - PLAYER_RADIUS = 0 := by ring
    rw [hz]
    simp [not_lt_zero_self]

/-- Witness for C6: a player at `(0.2, 0.1)` fully inside the unit
barrier tile centred at the origin is pushed out along the x axis (the
axis of larger gap) to `(1, 0.1)` and no longer overlaps the tile. -/
theorem C6_barrier_resolution_witness :
    resolve_barrier ⟨Q2.ofRat 0, Q2.ofRat 0⟩ ⟨Q2.ofRat 1, Q2.ofRat 1⟩
        ⟨Q2.ofRat (1 / 5), Q2.ofRat (1 / 10)⟩ =
      ⟨Q2.ofRat 1, Q2.ofRat (1 / 10)⟩ ∧
    penetrates ⟨Q2.ofRat 0, Q2.ofRat 0⟩ ⟨Q2.ofRat 1, Q2.ofRat 1⟩
        (resolve_barrier ⟨Q2.ofRat 0, Q2.ofRat 0⟩ ⟨Q2.ofRat 1, Q2.ofRat 1⟩
          ⟨Q2.ofRat (1 / 5), Q2.ofRat (1 / 10)⟩) = false := by
  have h := C6_barrier_resolution ⟨Q2.ofRat 0, Q2.ofRat 0⟩ ⟨Q2.ofRat 1, Q2.ofRat 1⟩
    ⟨Q2.ofRat (1 / 5), Q2.ofRat (1 / 10)⟩ (by decide) (by decide)
  have h2 := h.1 (by decide)
  refine ⟨?_, h2.2⟩
  rw [h2.1]
  decide

/-! ## Claim C5: projectile-barrier collisions -/

/-- Surviving barriers are exactly the positions whose removal flag is
off. -/
theorem mem_pbc_barriers {prs : List ProjEnt} {bars : List BarrierEnt} {b : BarrierEnt} :
    b ∈ (projectile_barrier_collisions prs bars).2 ↔
      ∃ i, i < bars.length ∧ bars[i]? = some b ∧ barrier_removed prs bars i = false := by
  simp only [projectile_barrier_collisions, List.mem_filterMap, List.mem_range]
  constructor
  · rintro ⟨i, hi, hf⟩
    rcases hr : barrier_removed prs bars i with _ | _
    · rw [hr] at hf
      simp only [Bool.false_eq_true, if_false] at hf
      exact ⟨i, hi, hf, hr⟩
    · rw [hr] at hf
      simp at hf
  · rintro ⟨i, hi, hb, hr⟩
    exact ⟨i, hi, by simp [hr, hb]⟩

/-- C5: an in-bounds projectile whose first barrier overlap is index `i`
is despawned; the struck barrier is despawned iff it is player-placed
(terrain barriers survive); and every barrier removed this tick is the
first match of some in-bounds projectile, so each projectile removes at
most one barrier. -/
theorem C5_projectile_barrier {prs : List ProjEnt} {bars : List BarrierEnt}
    {pr : ProjEnt} {i : ℕ} {b : BarrierEnt}
    (hmem : pr ∈ prs)
    (hin : proj_out_of_bounds pr.pos = false)
    (hhit : first_hit_idx pr.pos bars = some i)
    (hb : bars[i]? = some b) :
    pr ∉ (projectile_barrier_collisions prs bars).1 ∧
    barrier_removed prs bars i = b.player_placed ∧
    (b.player_placed = false → b ∈ (projectile_barrier_collisions prs bars).2) ∧
    (∀ j, barrier_removed prs bars j = true →
      ∃ q ∈ prs, proj_out_of_bounds q.pos = false ∧ first_hit_idx q.pos bars = some j) := by
  have hstruck : struck prs bars i = true := by
    unfold struck
    rw [List.any_eq_true]
    exact ⟨pr, hmem, by simp [hin, hhit]⟩
  have hrem : barrier_removed prs bars i = b.player_placed := by
    unfold barrier_removed
    rw [hb]
    show (b.player_placed && struck prs bars i) = b.player_placed
    rcases hpp : b.player_placed with _ | _
    · simp
    · simp [hstruck]
  refine ⟨?_, hrem, ?_, ?_⟩
  · intro hcontra
    have := (List.mem_filter.1 hcontra).2
    rw [hin, hhit] at this
    simp at this
  · intro hpp
    refine mem_pbc_barriers.2 ⟨i, ?_, hb, by rw [hrem, hpp]⟩
    rcases List.getElem?_eq_some.1 hb with ⟨hlt, _⟩
    exact hlt
  · intro j hj
    unfold barrier_removed at hj
    rcases hbj : bars[j]? with _ | bj
    · rw [hbj] at hj
      simp at hj
    · rw [hbj] at hj
      have hstruckj : struck prs bars j = true := by
        rw [Bool.and_eq_true] at hj
        exact hj.2
      rcases List.any_eq_true.1 hstruckj with ⟨q, hqmem, hq⟩
      rw [Bool.and_eq_true] at hq
      obtain ⟨hq1, hq2⟩ := hq
      refine ⟨q, hqmem, ?_, ?_⟩
      · rcases hoq : proj_out_of_bounds q.pos with _ | _
        · rfl
        · rw [hoq] at hq1
          simp at hq1
      · exact beq_iff_eq.1 hq2

/-- Witness for C5: one projectile at the origin over a terrain tile
(index 0) and a player-placed tile (index 1), both at the origin.  The
projectile despawns, the struck barrier (the terrain one, the first
match) is not removed, and no barrier is removed at all. -/
theorem C5_projectile_barrier_witness :
    (⟨⟨Q2.ofRat 0, Q2.ofRat 0⟩, ⟨Q2.ofRat 0, Q2.ofRat 0⟩⟩ : ProjEnt) ∉
      (projectile_barrier_collisions
        [⟨⟨Q2.ofRat 0, Q2.ofRat 0⟩, ⟨Q2.ofRat 0, Q2.ofRat 0⟩⟩]
        [⟨false, ⟨Q2.ofRat 0, Q2.ofRat 0⟩, ⟨Q2.ofRat 1, Q2.ofRat 1⟩⟩,
         ⟨true, ⟨Q2.ofRat 0, Q2.ofRat 0⟩, ⟨Q2.ofRat 1, Q2.ofRat 1⟩⟩]).1 ∧
    barrier_removed
        [⟨⟨Q2.ofRat 0, Q2.ofRat 0⟩, ⟨Q2.ofRat 0, Q2.ofRat 0⟩⟩]
        [⟨false, ⟨Q2.ofRat 0, Q2.ofRat 0⟩, ⟨Q2.ofRat 1, Q2.ofRat 1⟩⟩,
         ⟨true, ⟨Q2.ofRat 0, Q2.ofRat 0⟩, ⟨Q2.ofRat 1, Q2.ofRat 1⟩⟩] 0 = false ∧
    (⟨false, ⟨Q2.ofRat 0, Q2.ofRat 0⟩, ⟨Q2.ofRat 1, Q2.ofRat 1⟩⟩ : BarrierEnt) ∈
      (projectile_barrier_collisions
        [⟨⟨Q2.ofRat 0, Q2.ofRat 0⟩, ⟨Q2.ofRat 0, Q2.ofRat 0⟩⟩]
        [⟨false, ⟨Q2.ofRat 0, Q2.ofRat 0⟩, ⟨Q2.ofRat 1, Q2.ofRat 1⟩⟩,
         ⟨true, ⟨Q2.ofRat 0, Q2.ofRat 0⟩, ⟨Q2.ofRat 1, Q2.ofRat 1⟩⟩]).2 := by
  have h := @C5_projectile_barrier
    [⟨⟨Q2.ofRat 0, Q2.ofRat 0⟩, ⟨Q2.ofRat 0, Q2.ofRat 0⟩⟩]
    [⟨false, ⟨Q2.ofRat 0, Q2.ofRat 0⟩, ⟨Q2.ofRat 1, Q2.ofRat 1⟩⟩,
     ⟨true, ⟨Q2.ofRat 0, Q2.ofRat 0⟩, ⟨Q2.ofRat 1, Q2.ofRat 1⟩⟩]
    ⟨⟨Q2.ofRat 0, Q2.ofRat 0⟩, ⟨Q2.ofRat 0, Q2.ofRat 0⟩⟩
    0
    ⟨false, ⟨Q2.ofRat 0, Q2.ofRat 0⟩, ⟨Q2.ofRat 1, Q2.ofRat 1⟩⟩
    (by decide) (by decide) (by decide) (by decide)
  refine ⟨h.1, ?_, h.2.2.1 rfl⟩
  rw [h.2.1]

/-! ## Claims C7 and C9: the movement phase -/

/-- The components of a player that the gun-update inner loop does not
touch. -/
def core (p : PlayerEnt) : ℕ × Q2 × Vec2 × Vec2 × Bool :=
  (p.handle, p.speed, p.pos, p.moveDir, p.canAttack)

theorem core_gun_update (dv : Vec2) (q : PlayerEnt) :
    core { q with gunOffset := ⟨dv.x * Q2.ofRat (1 / 2), dv.y * Q2.ofRat (1 / 2)⟩,
                  gunDirVec := dv } = core q := rfl

theorem moved_player_core_congr (inputs : List ℕ) (dt : Q2) {p q : PlayerEnt}
    (h : core p = core q) :
    core (moved_player inputs dt p) = core (moved_player inputs dt q) := by
  have h1 : p.handle = q.handle := congrArg (fun t => t.1) h
  have h2 : p.speed = q.speed := congrArg (fun t => t.2.1) h
  have h3 : p.pos = q.pos := congrArg (fun t => t.2.2.1) h
  have h5 : p.canAttack = q.canAttack := congrArg (fun t => t.2.2.2.2) h
  simp only [moved_player]
  rw [h1, h2, h3]
  by_cases hdv : direction (inputs.getD q.handle 0) = (⟨0, 0⟩ : Vec2)
  · rw [if_pos hdv, if_pos hdv]
    exact h
  · rw [if_neg hdv, if_neg hdv]
    simp only [core, h5]

theorem map_core_moved {inputs : List ℕ} {dt : Q2} {o o' : Option PlayerEnt}
    (h : o.map core = o'.map core) :
    o.map (fun p => core (moved_player inputs dt p)) =
      o'.map (fun p => core (moved_player inputs dt p)) := by
  cases o <;> cases o' <;> simp at h ⊢
  exact moved_player_core_congr inputs dt h

theorem length_mp_body (inputs : List ℕ) (dt : Q2) (acc : List PlayerEnt) (k : ℕ) :
    (mp_body inputs dt acc k).length = acc.length := by
  unfold mp_body
  rcases h : acc[k]? with _ | p
  · rfl
  · dsimp only
    split
    · rfl
    · unfold set_all_guns
      rw [List.length_map, List.length_set]

theorem length_mp_loop (inputs : List ℕ) (dt : Q2) :
    ∀ ks acc, (mp_loop inputs dt acc ks).length = acc.length := by
  intro ks
  induction ks with
  | nil => intro acc; rfl
  | cons k ks ih =>
    intro acc
    rw [mp_loop, ih, length_mp_body]

theorem mp_body_core_ne (inputs : List ℕ) (dt : Q2) (acc : List PlayerEnt)
    {i k : ℕ} (hne : i ≠ k) :
    ((mp_body inputs dt acc k)[i]?).map core = (acc[i]?).map core := by
  unfold mp_body
  rcases h : acc[k]? with _ | p
  · rfl
  · dsimp only
    split
    · rfl
    · unfold set_all_guns
      rw [List.getElem?_map, List.getElem?_set_ne (by omega)]
      cases acc[i]? <;> rfl

theorem mp_body_core_eq (inputs : List ℕ) (dt : Q2) (acc : List PlayerEnt) (k : ℕ) :
    ((mp_body inputs dt acc k)[k]?).map core =
      (acc[k]?).map (fun p => core (moved_player inputs dt p)) := by
  unfold mp_body
  rcases h : acc[k]? with _ | p
  · rw [h]; rfl
  · dsimp only
    split
    · rename_i hzero
      rw [h]
      have hmp : moved_player inputs dt p = p := by
        unfold moved_player
        rw [if_pos hzero]
      show some (core p) = some (core (moved_player inputs dt p))
      rw [hmp]
    · rename_i hzero
      unfold set_all_guns
      rw [List.getElem?_map]
      have hk : k < acc.length := by
        by_contra hcon
        rw [List.getElem?_eq_none (by omega)] at h
        cases h
      rw [List.getElem?_set_self hk]
      rfl

theorem mp_loop_core_notmem (inputs : List ℕ) (dt : Q2) :
    ∀ ks (acc : List PlayerEnt) (i : ℕ), i ∉ ks →
      ((mp_loop inputs dt acc ks)[i]?).map core = (acc[i]?).map core := by
  intro ks
  induction ks with
  | nil => intro acc i _; rfl
  | cons k ks ih =>
    intro acc i hi
    have hik : i ≠ k := fun h => hi (by rw [h]; exact List.mem_cons_self _ _)
    have hiks : i ∉ ks := fun h => hi (List.mem_cons_of_mem _ h)
    rw [mp_loop, ih _ _ hiks, mp_body_core_ne inputs dt acc hik]

theorem mp_loop_core_mem (inputs : List ℕ) (dt : Q2) :
    ∀ ks (acc : List PlayerEnt) (i : ℕ), ks.Nodup → i ∈ ks →
      ((mp_loop inputs dt acc ks)[i]?).map core =
        (acc[i]?).map (fun p => core (moved_player inputs dt p)) := by
  intro ks
  induction ks with
  | nil => intro acc i _ hi; cases hi
  | cons k ks ih =>
    intro acc i hnd hi
    have hknotin : k ∉ ks := (List.nodup_cons.1 hnd).1
    have hnd' : ks.Nodup := (List.nodup_cons.1 hnd).2
    rcases List.mem_cons.1 hi with he | hm
    · subst he
      rw [mp_loop, mp_loop_core_notmem inputs dt ks _ i hknotin,
        mp_body_core_eq]
    · have hik : i ≠ k := fun h => hknotin (by rw [← h]; exact hm)
      rw [mp_loop, ih _ _ hnd' hm]
      exact map_core_moved (mp_body_core_ne inputs dt acc hik)

/-- The end-to-end movement fact: player `k`'s handle, speed, position,
facing and attack flag after `move_players` are those of
`moved_player` applied to its original state. -/
theorem move_players_core (inputs : List ℕ) (dt : Q2) (ps : List PlayerEnt)
    {k : ℕ} (hk : k < ps.length) :
    ((move_players inputs dt ps)[k]?).map core =
      (ps[k]?).map (fun p => core (moved_player inputs dt p)) := by
  unfold move_players
  exact mp_loop_core_mem inputs dt (List.range ps.length) ps k
    (List.nodup_range _) (List.mem_range.2 hk)

/-- Modelled from the claim's words, for the counterexample: clamping to
"the world bounds minus half the player's radius" would use
`WORLD_SIZE/2 - PLAYER_RADIUS/2 = 20.25`. -/
def claimed_boundary_limit : Q2 :=
  Q2.ofRat 41 * Q2.ofRat (1 / 2) - PLAYER_RADIUS * Q2.ofRat (1 / 2)

/-- C7: the claim's clamp bound is wrong.  A player at `x = 19.5` with
speed 10 moving right for `dt = 0.2` is clamped to `x = 20`
(`WORLD_SIZE/2 - PLAYER_RADIUS`), not to the claimed
`WORLD_SIZE/2 - PLAYER_RADIUS/2 = 20.25`. -/
theorem C7_clamp_bound_cex :
    ((move_players [8] (Q2.ofRat (1 / 5))
        [⟨0, Q2.ofRat 10, ⟨Q2.ofRat (39 / 2), Q2.ofRat 0⟩, ⟨Q2.ofRat 1, Q2.ofRat 0⟩, true,
          ⟨Q2.ofRat 0, Q2.ofRat 0⟩, ⟨Q2.ofRat 0, Q2.ofRat 0⟩⟩])[0]?).map PlayerEnt.pos =
      some ⟨Q2.ofRat 20, Q2.ofRat 0⟩ ∧
    (⟨Q2.ofRat 20, Q2.ofRat 0⟩ : Vec2) ≠
      Vec2.clamp ⟨Q2.ofRat (43 / 2), Q2.ofRat 0⟩
        (-(Vec2.splat claimed_boundary_limit)) (Vec2.splat claimed_boundary_limit) := by
  constructor
  · decide
  · decide

/-- C7 (amended): for every player whose decoded input direction is
nonzero, the movement phase sets the position to the previous position
plus `direction * speed * dt`, clamped componentwise to the world bounds
minus the player's radius (`±(WORLD_SIZE/2 - 0.5)`), and sets the facing
to the decoded direction. -/
theorem C7_movement (inputs : List ℕ) (dt : Q2) (ps : List PlayerEnt)
    (k : ℕ) (hk : k < ps.length)
    (hdir : direction (inputs.getD (ps.get ⟨k, hk⟩).handle 0) ≠ (⟨0, 0⟩ : Vec2)) :
    ∃ p', (move_players inputs dt ps)[k]? = some p' ∧
      p'.pos = Vec2.clamp
          ((ps.get ⟨k, hk⟩).pos +
            (direction (inputs.getD (ps.get ⟨k, hk⟩).handle 0)).smul
              ((ps.get ⟨k, hk⟩).speed * dt))
          (-(Vec2.splat boundary_limit)) (Vec2.splat boundary_limit) ∧
      p'.moveDir = direction (inputs.getD (ps.get ⟨k, hk⟩).handle 0) := by
  have hcore := move_players_core inputs dt ps hk
  have hget : ps[k]? = some (ps.get ⟨k, hk⟩) := by
    rw [List.getElem?_eq_some]
    exact ⟨hk, rfl⟩
  rw [hget] at hcore
  rcases hres : (move_players inputs dt ps)[k]? with _ | p'
  · rw [hres] at hcore
    cases hcore
  · rw [hres] at hcore
    have hcore' : core p' = core (moved_player inputs dt (ps.get ⟨k, hk⟩)) := by
      simpa using hcore
    refine ⟨p', rfl, ?_, ?_⟩
    · have hpos := congrArg (fun t => t.2.2.1) hcore'
      simp only [core] at hpos
      rw [hpos]
      unfold moved_player
      rw [if_neg hdir]
    · have hdirq := congrArg (fun t => t.2.2.2.1) hcore'
      simp only [core] at hdirq
      rw [hdirq]
      unfold moved_player
      rw [if_neg hdir]

/-- Witness for C7: a lone player at the origin with speed 10 pressing
right for `dt = 0.1` ends at `(1, 0)` facing `(1, 0)`. -/
theorem C7_movement_witness :
    ∃ p', (move_players [8] (Q2.ofRat (1 / 10))
        [⟨0, Q2.ofRat 10, ⟨Q2.ofRat 0, Q2.ofRat 0⟩, ⟨Q2.ofRat 0, Q2.ofRat 1⟩, true,
          ⟨Q2.ofRat 0, Q2.ofRat 0⟩, ⟨Q2.ofRat 0, Q2.ofRat 0⟩⟩])[0]? = some p' ∧
      p'.pos = Vec2.clamp
          (((⟨Q2.ofRat 0, Q2.ofRat 0⟩ : Vec2)) +
            (direction 8).smul (Q2.ofRat 10 * Q2.ofRat (1 / 10)))
          (-(Vec2.splat boundary_limit)) (Vec2.splat boundary_limit) ∧
      p'.moveDir = direction 8 := by
  have h := C7_movement [8] (Q2.ofRat (1 / 10))
    [⟨0, Q2.ofRat 10, ⟨Q2.ofRat 0, Q2.ofRat 0⟩, ⟨Q2.ofRat 0, Q2.ofRat 1⟩, true,
      ⟨Q2.ofRat 0, Q2.ofRat 0⟩, ⟨Q2.ofRat 0, Q2.ofRat 0⟩⟩] 0 (by decide) (by decide)
  exact h

/-- C9: the gun-update loop in `move_players` iterates over every gun
entity, so each moving player's iteration rewrites all guns; after a
frame where player 0 moves right and player 1 moves up, player 0's gun
offset is `(0, 0.5)` (player 1's direction), not an offset toward player
0's own facing `(1, 0)`; and a lone player with zero direction has its
gun left untouched rather than repositioned. -/
theorem C9_gun_update_bug :
    (((move_players [8, 1] (Q2.ofRat 1)
        [⟨0, Q2.ofRat 10, ⟨Q2.ofRat 0, Q2.ofRat 0⟩, ⟨Q2.ofRat 1, Q2.ofRat 0⟩, true,
          ⟨Q2.ofRat (1 / 2), Q2.ofRat 0⟩, ⟨Q2.ofRat 1, Q2.ofRat 0⟩⟩,
         ⟨1, Q2.ofRat 10, ⟨Q2.ofRat 3, Q2.ofRat 3⟩, ⟨Q2.ofRat 0, Q2.ofRat 1⟩, true,
          ⟨Q2.ofRat (1 / 2), Q2.ofRat 0⟩, ⟨Q2.ofRat 0, Q2.ofRat 1⟩⟩])[0]?).map
      (fun p => (p.moveDir, p.gunOffset)) =
      some (⟨Q2.ofRat 1, Q2.ofRat 0⟩, ⟨Q2.ofRat 0, Q2.ofRat (1 / 2)⟩)) ∧
    (⟨Q2.ofRat 0, Q2.ofRat (1 / 2)⟩ : Vec2) ≠
      ⟨Q2.ofRat 1 * Q2.ofRat (1 / 2), Q2.ofRat 0 * Q2.ofRat (1 / 2)⟩ ∧
    (((move_players [0] (Q2.ofRat 1)
        [⟨0, Q2.ofRat 10, ⟨Q2.ofRat 0, Q2.ofRat 0⟩, ⟨Q2.ofRat 1, Q2.ofRat 0⟩, true,
          ⟨Q2.ofRat 7, Q2.ofRat 7⟩, ⟨Q2.ofRat 0, Q2.ofRat 0⟩⟩])[0]?).map
      PlayerEnt.gunOffset = some ⟨Q2.ofRat 7, Q2.ofRat 7⟩) := by
  refine ⟨by decide, by decide, by decide⟩

/-! ## Claims C3 and C10: player-projectile collisions and scoring -/

/-- C3: the claim as stated is false in the mutual-kill corner.  In a
state where a projectile overlaps player 0 (so the claim's hypothesis
holds for player 0), player 0's own score can change in that same tick —
here both players are hit, and the hit player 0's score goes from 0 to 1
instead of staying unchanged. -/
theorem C3_mutual_kill_cex :
    hits ⟨0, Q2.ofRat 10, ⟨Q2.ofRat 0, Q2.ofRat 0⟩, ⟨Q2.ofRat 1, Q2.ofRat 0⟩, true,
        ⟨Q2.ofRat 0, Q2.ofRat 0⟩, ⟨Q2.ofRat 0, Q2.ofRat 0⟩⟩
      [⟨⟨Q2.ofRat 0, Q2.ofRat 0⟩, ⟨Q2.ofRat 1, Q2.ofRat 0⟩⟩,
       ⟨⟨Q2.ofRat 1, Q2.ofRat 0⟩, ⟨Q2.ofRat 1, Q2.ofRat 0⟩⟩] = true ∧
    (check_player_collisions
        ⟨[⟨0, Q2.ofRat 10, ⟨Q2.ofRat 0, Q2.ofRat 0⟩, ⟨Q2.ofRat 1, Q2.ofRat 0⟩, true,
            ⟨Q2.ofRat 0, Q2.ofRat 0⟩, ⟨Q2.ofRat 0, Q2.ofRat 0⟩⟩,
          ⟨1, Q2.ofRat 10, ⟨Q2.ofRat 1, Q2.ofRat 0⟩, ⟨Q2.ofRat 1, Q2.ofRat 0⟩, true,
            ⟨Q2.ofRat 0, Q2.ofRat 0⟩, ⟨Q2.ofRat 0, Q2.ofRat 0⟩⟩],
         [⟨⟨Q2.ofRat 0, Q2.ofRat 0⟩, ⟨Q2.ofRat 1, Q2.ofRat 0⟩⟩,
          ⟨⟨Q2.ofRat 1, Q2.ofRat 0⟩, ⟨Q2.ofRat 1, Q2.ofRat 0⟩⟩],
         [], [0, 0], GamePhase.ActiveRound, Q2.ofRat 0⟩).scores.getD 0 0 ≠ 0 := by
  constructor
  · decide
  · decide

/-- C3 (amended): with exactly two players, when a live projectile
overlaps exactly one player, that player is despawned, the phase moves to
`RoundOver`, and the other player's score (index 1 if player 0 was hit,
index 0 otherwise) increases by exactly one while the hit player's score
is unchanged.  (If both players are hit in the same tick, both scores
increase — see C10 — which is why the single-hit qualification is
needed.) -/
theorem C3_hit_scoring (st : GameState) (a b : PlayerEnt) (s0 s1 : ℕ)
    (hps : st.players = [a, b]) (ha : a.handle = 0) (hb : b.handle = 1)
    (hsc : st.scores = [s0, s1]) (hs0 : s0 + 1 < 2 ^ 64) (hs1 : s1 + 1 < 2 ^ 64) :
    (hits a st.projectiles = true → hits b st.projectiles = false →
      (check_player_collisions st).players = [b] ∧
      (check_player_collisions st).scores = [s0, s1 + 1] ∧
      (check_player_collisions st).phase = GamePhase.RoundOver) ∧
    (hits b st.projectiles = true → hits a st.projectiles = false →
      (check_player_collisions st).players = [a] ∧
      (check_player_collisions st).scores = [s0 + 1, s1] ∧
      (check_player_collisions st).phase = GamePhase.RoundOver) := by
  constructor
  · intro hhita hhitb
    unfold check_player_collisions
    rw [hps, hsc]
    simp only [List.foldl, hhita, hhitb, ha, hb, NUM_PLAYERS, bump_score,
      List.filter, Bool.not_true, Bool.not_false, if_true, if_false]
    simp [List.getD, Nat.mod_eq_of_lt hs1, Nat.mod_eq_of_lt hs0]
    all_goals omega
  · intro hhitb hhita
    unfold check_player_collisions
    rw [hps, hsc]
    simp only [List.foldl, hhita, hhitb, ha, hb, NUM_PLAYERS, bump_score,
      List.filter, Bool.not_true, Bool.not_false, if_true, if_false]
    simp [List.getD, Nat.mod_eq_of_lt hs1, Nat.mod_eq_of_lt hs0]
    all_goals omega

/-- Witness for C3: player 1 at `(5,0)`, player 0 at the origin with a
projectile at `(0.3, 0)` overlapping only player 0; player 0 despawns,
the phase becomes `RoundOver` and the scores go from `[0,0]` to
`[0,1]`. -/
theorem C3_hit_scoring_witness :
    (check_player_collisions
        ⟨[⟨0, Q2.ofRat 10, ⟨Q2.ofRat 0, Q2.ofRat 0⟩, ⟨Q2.ofRat 1, Q2.ofRat 0⟩, true,
            ⟨Q2.ofRat 0, Q2.ofRat 0⟩, ⟨Q2.ofRat 0, Q2.ofRat 0⟩⟩,
          ⟨1, Q2.ofRat 10, ⟨Q2.ofRat 5, Q2.ofRat 0⟩, ⟨Q2.ofRat 1, Q2.ofRat 0⟩, true,
            ⟨Q2.ofRat 0, Q2.ofRat 0⟩, ⟨Q2.ofRat 0, Q2.ofRat 0⟩⟩],
         [⟨⟨Q2.ofRat (3 / 10), Q2.ofRat 0⟩, ⟨Q2.ofRat 1, Q2.ofRat 0⟩⟩],
         [], [0, 0], GamePhase.ActiveRound, Q2.ofRat 0⟩).players =
      [⟨1, Q2.ofRat 10, ⟨Q2.ofRat 5, Q2.ofRat 0⟩, ⟨Q2.ofRat 1, Q2.ofRat 0⟩, true,
        ⟨Q2.ofRat 0, Q2.ofRat 0⟩, ⟨Q2.ofRat 0, Q2.ofRat 0⟩⟩] ∧
    (check_player_collisions
        ⟨[⟨0, Q2.ofRat 10, ⟨Q2.ofRat 0, Q2.ofRat 0⟩, ⟨Q2.ofRat 1, Q2.ofRat 0⟩, true,
            ⟨Q2.ofRat 0, Q2.ofRat 0⟩, ⟨Q2.ofRat 0, Q2.ofRat 0⟩⟩,
          ⟨1, Q2.ofRat 10, ⟨Q2.ofRat 5, Q2.ofRat 0⟩, ⟨Q2.ofRat 1, Q2.ofRat 0⟩, true,
            ⟨Q2.ofRat 0, Q2.ofRat 0⟩, ⟨Q2.ofRat 0, Q2.ofRat 0⟩⟩],
         [⟨⟨Q2.ofRat (3 / 10), Q2.ofRat 0⟩, ⟨Q2.ofRat 1, Q2.ofRat 0⟩⟩],
         [], [0, 0], GamePhase.ActiveRound, Q2.ofRat 0⟩).scores = [0, 1] ∧
    (check_player_collisions
        ⟨[⟨0, Q2.ofRat 10, ⟨Q2.ofRat 0, Q2.ofRat 0⟩, ⟨Q2.ofRat 1, Q2.ofRat 0⟩, true,
            ⟨Q2.ofRat 0, Q2.ofRat 0⟩, ⟨Q2.ofRat 0, Q2.ofRat 0⟩⟩,
          ⟨1, Q2.ofRat 10, ⟨Q2.ofRat 5, Q2.ofRat 0⟩, ⟨Q2.ofRat 1, Q2.ofRat 0⟩, true,
            ⟨Q2.ofRat 0, Q2.ofRat 0⟩, ⟨Q2.ofRat 0, Q2.ofRat 0⟩⟩],
         [⟨⟨Q2.ofRat (3 / 10), Q2.ofRat 0⟩, ⟨Q2.ofRat 1, Q2.ofRat 0⟩⟩],
         [], [0, 0], GamePhase.ActiveRound, Q2.ofRat 0⟩).phase = GamePhase.RoundOver := by
  have h := (C3_hit_scoring
    ⟨[⟨0, Q2.ofRat 10, ⟨Q2.ofRat 0, Q2.ofRat 0⟩, ⟨Q2.ofRat 1, Q2.ofRat 0⟩, true,
        ⟨Q2.ofRat 0, Q2.ofRat 0⟩, ⟨Q2.ofRat 0, Q2.ofRat 0⟩⟩,
      ⟨1, Q2.ofRat 10, ⟨Q2.ofRat 5, Q2.ofRat 0⟩, ⟨Q2.ofRat 1, Q2.ofRat 0⟩, true,
        ⟨Q2.ofRat 0, Q2.ofRat 0⟩, ⟨Q2.ofRat 0, Q2.ofRat 0⟩⟩],
     [⟨⟨Q2.ofRat (3 / 10), Q2.ofRat 0⟩, ⟨Q2.ofRat 1, Q2.ofRat 0⟩⟩],
     [], [0, 0], GamePhase.ActiveRound, Q2.ofRat 0⟩
    ⟨0, Q2.ofRat 10, ⟨Q2.ofRat 0, Q2.ofRat 0⟩, ⟨Q2.ofRat 1, Q2.ofRat 0⟩, true,
      ⟨Q2.ofRat 0, Q2.ofRat 0⟩, ⟨Q2.ofRat 0, Q2.ofRat 0⟩⟩
    ⟨1, Q2.ofRat 10, ⟨Q2.ofRat 5, Q2.ofRat 0⟩, ⟨Q2.ofRat 1, Q2.ofRat 0⟩, true,
      ⟨Q2.ofRat 0, Q2.ofRat 0⟩, ⟨Q2.ofRat 0, Q2.ofRat 0⟩⟩
    0 0 rfl rfl rfl rfl (by norm_num) (by norm_num)).1 (by decide) (by decide)
  exact ⟨h.1, h.2.1, h.2.2⟩

/-- C10: with exactly two players, if each live player overlaps some live
projectile in the same tick (a mutual kill), both players are despawned,
both scores are incremented by one, and the phase moves to `RoundOver` —
the per-round score sum grows by two. -/
theorem C10_mutual_kill (st : GameState) (a b : PlayerEnt) (s0 s1 : ℕ)
    (hps : st.players = [a, b]) (ha : a.handle = 0) (hb : b.handle = 1)
    (hsc : st.scores = [s0, s1]) (hs0 : s0 + 1 < 2 ^ 64) (hs1 : s1 + 1 < 2 ^ 64)
    (hha : hits a st.projectiles = true) (hhb : hits b st.projectiles = true) :
    (check_player_collisions st).players = [] ∧
    (check_player_collisions st).scores = [s0 + 1, s1 + 1] ∧
    (check_player_collisions st).phase = GamePhase.RoundOver := by
  unfold check_player_collisions
  rw [hps, hsc]
  simp only [List.foldl, hha, hhb, ha, hb, NUM_PLAYERS, bump_score,
    List.filter, Bool.not_true, if_true, if_false]
  simp [List.getD, Nat.mod_eq_of_lt hs1, Nat.mod_eq_of_lt hs0]
  all_goals omega

/-- Witness for C10: both players sit on top of a projectile each;
afterwards no player remains, the scores go from `[0,0]` to `[1,1]` and
the phase is `RoundOver`. -/
theorem C10_mutual_kill_witness :
    (check_player_collisions
        ⟨[⟨0, Q2.ofRat 10, ⟨Q2.ofRat 0, Q2.ofRat 0⟩, ⟨Q2.ofRat 1, Q2.ofRat 0⟩, true,
            ⟨Q2.ofRat 0, Q2.ofRat 0⟩, ⟨Q2.ofRat 0, Q2.ofRat 0⟩⟩,
          ⟨1, Q2.ofRat 10, ⟨Q2.ofRat 1, Q2.ofRat 0⟩, ⟨Q2.ofRat 1, Q2.ofRat 0⟩, true,
            ⟨Q2.ofRat 0, Q2.ofRat 0⟩, ⟨Q2.ofRat 0, Q2.ofRat 0⟩⟩],
         [⟨⟨Q2.ofRat 0, Q2.ofRat 0⟩, ⟨Q2.ofRat 1, Q2.ofRat 0⟩⟩,
          ⟨⟨Q2.ofRat 1, Q2.ofRat 0⟩, ⟨Q2.ofRat 1, Q2.ofRat 0⟩⟩],
         [], [0, 0], GamePhase.ActiveRound, Q2.ofRat 0⟩).players = [] ∧
    (check_player_collisions
        ⟨[⟨0, Q2.ofRat 10, ⟨Q2.ofRat 0, Q2.ofRat 0⟩, ⟨Q2.ofRat 1, Q2.ofRat 0⟩, true,
            ⟨Q2.ofRat 0, Q2.ofRat 0⟩, ⟨Q2.ofRat 0, Q2.ofRat 0⟩⟩,
          ⟨1, Q2.ofRat 10, ⟨Q2.ofRat 1, Q2.ofRat 0⟩, ⟨Q2.ofRat 1, Q2.ofRat 0⟩, true,
            ⟨Q2.ofRat 0, Q2.ofRat 0⟩, ⟨Q2.ofRat 0, Q2.ofRat 0⟩⟩],
         [⟨⟨Q2.ofRat 0, Q2.ofRat 0⟩, ⟨Q2.ofRat 1, Q2.ofRat 0⟩⟩,
          ⟨⟨Q2.ofRat 1, Q2.ofRat 0⟩, ⟨Q2.ofRat 1, Q2.ofRat 0⟩⟩],
         [], [0, 0], GamePhase.ActiveRound, Q2.ofRat 0⟩).scores = [1, 1] := by
  have h := C10_mutual_kill
    ⟨[⟨0, Q2.ofRat 10, ⟨Q2.ofRat 0, Q2.ofRat 0⟩, ⟨Q2.ofRat 1, Q2.ofRat 0⟩, true,
        ⟨Q2.ofRat 0, Q2.ofRat 0⟩, ⟨Q2.ofRat 0, Q2.ofRat 0⟩⟩,
      ⟨1, Q2.ofRat 10, ⟨Q2.ofRat 1, Q2.ofRat 0⟩, ⟨Q2.ofRat 1, Q2.ofRat 0⟩, true,
        ⟨Q2.ofRat 0, Q2.ofRat 0⟩, ⟨Q2.ofRat 0, Q2.ofRat 0⟩⟩],
     [⟨⟨Q2.ofRat 0, Q2.ofRat 0⟩, ⟨Q2.ofRat 1, Q2.ofRat 0⟩⟩,
      ⟨⟨Q2.ofRat 1, Q2.ofRat 0⟩, ⟨Q2.ofRat 1, Q2.ofRat 0⟩⟩],
     [], [0, 0], GamePhase.ActiveRound, Q2.ofRat 0⟩
    ⟨0, Q2.ofRat 10, ⟨Q2.ofRat 0, Q2.ofRat 0⟩, ⟨Q2.ofRat 1, Q2.ofRat 0⟩, true,
      ⟨Q2.ofRat 0, Q2.ofRat 0⟩, ⟨Q2.ofRat 0, Q2.ofRat 0⟩⟩
    ⟨1, Q2.ofRat 10, ⟨Q2.ofRat 1, Q2.ofRat 0⟩, ⟨Q2.ofRat 1, Q2.ofRat 0⟩, true,
      ⟨Q2.ofRat 0, Q2.ofRat 0⟩, ⟨Q2.ofRat 0, Q2.ofRat 0⟩⟩
    0 0 rfl rfl rfl rfl (by norm_num) (by norm_num) (by decide) (by decide)
  exact ⟨h.1, h.2.1⟩

/-! ## Claim C4: deterministic RNG seeding (src/barriers/mod.rs line 31,
src/player_module/mod.rs lines 53-72) -/

/-- Seed used by `create_world`: `(1234u64 + playerscores.get(0) +
playerscores.get(1)) ^ **session_seed` (u64 wrapping addition). -/
def create_world_seed (playerscores : List ℕ) (session_seed : ℕ) : ℕ :=
  ((1234 + playerscores.getD 0 0 + playerscores.getD 1 0) % 2 ^ 64) ^^^ session_seed

/-- The `total_x` sum over the existing players, read before they are
despawned. -/
def total_player_x (ps : List PlayerEnt) : Q2 :=
  ps.foldl (fun acc p => acc + p.pos.x) 0

/-- Seed used by the player-respawn system: `(1234u64 + total_x as u64 +
playerscores.get(0) + playerscores.get(1)) ^ **random_seed`.  Note the
saturating `f32 as u64` cast of the coordinate sum. -/
def init_players_seed (existing_players : List PlayerEnt) (playerscores : List ℕ)
    (random_seed : ℕ) : ℕ :=
  ((1234 + Q2.toU64 (total_player_x existing_players) +
      playerscores.getD 0 0 + playerscores.getD 1 0) % 2 ^ 64) ^^^ random_seed

/-- Modelled from the claim's words, for the counterexample: "session
input is the sum of both players' scores plus the sum of the
x-coordinates of the players alive at the moment of respawn", i.e. the
coordinate sum enters the formula as an (integer) summand with its
sign. -/
def claimed_respawn_seed (s0 s1 : ℕ) (total_x : ℤ) (session : ℕ) : ℕ :=
  (((1234 + (s0 : ℤ) + (s1 : ℤ) + total_x) % 2 ^ 64).toNat) ^^^ session

/-- Modelled from the amended claim: the coordinate sum enters through
Rust's saturating `f32 as u64` cast (negative sums contribute 0,
fractional parts are truncated). -/
def amended_respawn_seed (s0 s1 : ℕ) (total_x : Q2) (session : ℕ) : ℕ :=
  ((1234 + Q2.toU64 total_x + s0 + s1) % 2 ^ 64) ^^^ session

/-- C4: the claim's respawn-seed formula is false.  With players at
x = -5 and x = 2 (coordinate sum -3) and zero scores and session seed,
the code's seed is `1234` (the negative sum saturates to 0 in the
`f32 as u64` cast) whereas the claimed formula gives `1231`. -/
theorem C4_seed_cex :
    init_players_seed
        [⟨0, Q2.ofRat 10, ⟨Q2.ofRat (-5), Q2.ofRat 0⟩, ⟨Q2.ofRat 1, Q2.ofRat 0⟩, true,
          ⟨Q2.ofRat 0, Q2.ofRat 0⟩, ⟨Q2.ofRat 0, Q2.ofRat 0⟩⟩,
         ⟨1, Q2.ofRat 10, ⟨Q2.ofRat 2, Q2.ofRat 0⟩, ⟨Q2.ofRat 1, Q2.ofRat 0⟩, true,
          ⟨Q2.ofRat 0, Q2.ofRat 0⟩, ⟨Q2.ofRat 0, Q2.ofRat 0⟩⟩]
        [0, 0] 0 = 1234 ∧
    claimed_respawn_seed 0 0 (-3) 0 = 1231 ∧
    init_players_seed
        [⟨0, Q2.ofRat 10, ⟨Q2.ofRat (-5), Q2.ofRat 0⟩, ⟨Q2.ofRat 1, Q2.ofRat 0⟩, true,
          ⟨Q2.ofRat 0, Q2.ofRat 0⟩, ⟨Q2.ofRat 0, Q2.ofRat 0⟩⟩,
         ⟨1, Q2.ofRat 10, ⟨Q2.ofRat 2, Q2.ofRat 0⟩, ⟨Q2.ofRat 1, Q2.ofRat 0⟩, true,
          ⟨Q2.ofRat 0, Q2.ofRat 0⟩, ⟨Q2.ofRat 0, Q2.ofRat 0⟩⟩]
        [0, 0] 0 ≠ claimed_respawn_seed 0 0 (-3) 0 := by
  refine ⟨by decide, by decide, by decide⟩

/-- C4 (amended): both seeds have the shape
`(1234 + session_input) XOR session_random_seed` (with u64 wrapping
addition); for world/terrain generation `session_input` is the sum of
both players' accumulated scores, and for player spawn placement it is
that sum plus the saturating `f32 as u64` truncation of the sum of the
x-coordinates of the players alive at the moment of respawn (read before
despawn). -/
theorem C4_seed_formula (scores : List ℕ) (session : ℕ) (ps : List PlayerEnt)
    (s0 s1 : ℕ) (h : scores = [s0, s1]) :
    create_world_seed scores session = ((1234 + s0 + s1) % 2 ^ 64) ^^^ session ∧
    init_players_seed ps scores session =
      amended_respawn_seed s0 s1 (total_player_x ps) session := by
  subst h
  constructor
  · rfl
  · unfold init_players_seed amended_respawn_seed
    norm_num [List.getD]

/-- Witness for C4: scores `[3, 4]`, session seed 5, one surviving
player at x = 3.5 (truncated to 3). -/
theorem C4_seed_formula_witness :
    create_world_seed [3, 4] 5 = ((1234 + 3 + 4) % 2 ^ 64) ^^^ 5 ∧
    init_players_seed
        [⟨0, Q2.ofRat 10, ⟨Q2.ofRat (7 / 2), Q2.ofRat 0⟩, ⟨Q2.ofRat 1, Q2.ofRat 0⟩, true,
          ⟨Q2.ofRat 0, Q2.ofRat 0⟩, ⟨Q2.ofRat 0, Q2.ofRat 0⟩⟩]
        [3, 4] 5 =
      amended_respawn_seed 3 4
        (total_player_x
          [⟨0, Q2.ofRat 10, ⟨Q2.ofRat (7 / 2), Q2.ofRat 0⟩, ⟨Q2.ofRat 1, Q2.ofRat 0⟩, true,
            ⟨Q2.ofRat 0, Q2.ofRat 0⟩, ⟨Q2.ofRat 0, Q2.ofRat 0⟩⟩]) 5 :=
  C4_seed_formula [3, 4] 5
    [⟨0, Q2.ofRat 10, ⟨Q2.ofRat (7 / 2), Q2.ofRat 0⟩, ⟨Q2.ofRat 1, Q2.ofRat 0⟩, true,
      ⟨Q2.ofRat 0, Q2.ofRat 0⟩, ⟨Q2.ofRat 0, Q2.ofRat 0⟩⟩] 3 4 rfl

/-! ## Claim C8: position bounds -/

/-- Position within the world square `[-WORLD_SIZE/2, WORLD_SIZE/2]²`. -/
def within_half_world (v : Vec2) : Prop :=
  -(Q2.ofRat 41 * Q2.ofRat (1 / 2)) ≤ v.x ∧ v.x ≤ Q2.ofRat 41 * Q2.ofRat (1 / 2) ∧
  -(Q2.ofRat 41 * Q2.ofRat (1 / 2)) ≤ v.y ∧ v.y ≤ Q2.ofRat 41 * Q2.ofRat (1 / 2)

/-- Position within the movement clamp square
`[-(WORLD_SIZE/2 - 0.5), WORLD_SIZE/2 - 0.5]²`. -/
def within_move_limit (v : Vec2) : Prop :=
  -boundary_limit ≤ v.x ∧ v.x ≤ boundary_limit ∧
  -boundary_limit ≤ v.y ∧ v.y ≤ boundary_limit

instance (v : Vec2) : Decidable (within_half_world v) := by
  unfold within_half_world
  infer_instance

instance (v : Vec2) : Decidable (within_move_limit v) := by
  unfold within_move_limit
  infer_instance

theorem le_of_ltB_false {a b : Q2} (h : a.ltB b = false) : b ≤ a := by
  rcases hh : b.leB a with _ | _
  · rw [Q2.ltB, hh] at h
    cases h
  · exact hh

theorem abs_le_split {x H : Q2} (hH : 0 ≤ H) (h : x.abs ≤ H) : -H ≤ x ∧ x ≤ H := by
  have hH' : (0 : ℝ) ≤ H.toReal := by
    have := (Q2.le_iff 0 H).1 hH
    rwa [Q2.toReal_zero] at this
  rcases hn : x.nonnegB with _ | _
  · rw [Q2.abs_of_negB hn] at h
    have hx := (Q2.nonnegB_false_iff x).1 hn
    have h' := (Q2.le_iff _ _).1 h
    rw [Q2.toReal_neg] at h'
    constructor
    · exact (Q2.le_iff _ _).2 (by rw [Q2.toReal_neg]; linarith)
    · exact (Q2.le_iff _ _).2 (by linarith)
  · rw [Q2.abs_of_nonnegB hn] at h
    have hx := (Q2.nonnegB_iff x).1 hn
    have h' := (Q2.le_iff _ _).1 h
    constructor
    · exact (Q2.le_iff _ _).2 (by rw [Q2.toReal_neg]; linarith)
    · exact h

/-- Any projectile surviving `projectile_barrier_collisions` passed the
bounds cull, hence lies within the world square. -/
theorem pbc_mem_bounds {prs : List ProjEnt} {bars : List BarrierEnt} {pr : ProjEnt}
    (h : pr ∈ (projectile_barrier_collisions prs bars).1) :
    within_half_world pr.pos := by
  have hpred := (List.mem_filter.1 h).2
  rw [Bool.and_eq_true] at hpred
  have hoob : proj_out_of_bounds pr.pos = false := by
    rcases ho : proj_out_of_bounds pr.pos with _ | _
    · rfl
    · rw [ho] at hpred
      rcases hpred with ⟨h1, _⟩
      cases h1
  unfold proj_out_of_bounds at hoob
  rw [Bool.or_eq_false_iff] at hoob
  obtain ⟨hx, hy⟩ := hoob
  have hx' := le_of_ltB_false hx
  have hy' := le_of_ltB_false hy
  have hH : (0 : Q2) ≤ Q2.ofRat 41 * Q2.ofRat (1 / 2) := by decide
  obtain ⟨hx1, hx2⟩ := abs_le_split hH hx'
  obtain ⟨hy1, hy2⟩ := abs_le_split hH hy'
  exact ⟨hx1, hx2, hy1, hy2⟩

/-- In an `ActiveRound` tick, the post-tick projectile list is the output
of the projectile-barrier phase (later phases do not touch it). -/
theorem tick_projectiles_active (players : List PlayerEnt) (projs : List ProjEnt)
    (bars : List BarrierEnt) (scores : List ℕ) (timer : Q2)
    (inputs : List ℕ) (dt : Q2) :
    (tick ⟨players, projs, bars, scores, GamePhase.ActiveRound, timer⟩ inputs dt).projectiles =
      (projectile_barrier_collisions
        (move_projectile dt
          (projs ++ (fire_projectile inputs
            (reload_projectile inputs
              (handle_barrier_collisions (move_players inputs dt players) bars))).2))
        bars).1 := rfl

/-- C8: the blanket bounds invariant is false.  From a reachable-looking
state (a player at `x = 20.4` — inside the world and inside the spawn
range — standing on the edge terrain tile at `x = 20`, clicking at
decoded cell 63), one `ActiveRound` tick ends with the player pushed to
`x = 21` and a player-placed barrier created at `x = 43`, both outside
`[-20.5, 20.5]`: barrier placement does not validate the decoded cell
and barrier resolution can push a player outward. -/
theorem C8_bounds_cex :
    ((tick
        ⟨[⟨0, Q2.ofRat 10, ⟨Q2.ofRat (102 / 5), Q2.ofRat 0⟩, ⟨Q2.ofRat 1, Q2.ofRat 0⟩, true,
            ⟨Q2.ofRat 0, Q2.ofRat 0⟩, ⟨Q2.ofRat 0, Q2.ofRat 0⟩⟩],
         [], [⟨false, ⟨Q2.ofRat 20, Q2.ofRat 0⟩, ⟨Q2.ofRat 1, Q2.ofRat 1⟩⟩],
         [0, 0], GamePhase.ActiveRound, Q2.ofRat 0⟩
        [331744] (Q2.ofRat 1)).players.map PlayerEnt.pos) =
      [⟨Q2.ofRat 21, Q2.ofRat 0⟩] ∧
    ((tick
        ⟨[⟨0, Q2.ofRat 10, ⟨Q2.ofRat (102 / 5), Q2.ofRat 0⟩, ⟨Q2.ofRat 1, Q2.ofRat 0⟩, true,
            ⟨Q2.ofRat 0, Q2.ofRat 0⟩, ⟨Q2.ofRat 0, Q2.ofRat 0⟩⟩],
         [], [⟨false, ⟨Q2.ofRat 20, Q2.ofRat 0⟩, ⟨Q2.ofRat 1, Q2.ofRat 1⟩⟩],
         [0, 0], GamePhase.ActiveRound, Q2.ofRat 0⟩
        [331744] (Q2.ofRat 1)).barriers.map BarrierEnt.pos) =
      [⟨Q2.ofRat 20, Q2.ofRat 0⟩, ⟨Q2.ofRat 43, Q2.ofRat 0⟩] ∧
    ¬ within_half_world ⟨Q2.ofRat 21, Q2.ofRat 0⟩ ∧
    ¬ within_half_world ⟨Q2.ofRat 43, Q2.ofRat 0⟩ := by
  refine ⟨by decide, by decide, by decide, by decide⟩

/-- C8 (amended): after any `ActiveRound` tick every projectile lies
within `[-WORLD_SIZE/2, WORLD_SIZE/2]` on both axes (out-of-bounds
projectiles are removed within the tick they exit), and the movement
phase clamps every moved player to
`[-(WORLD_SIZE/2 - 0.5), WORLD_SIZE/2 - 0.5]`; barriers (and players
pushed by barrier resolution) are not subject to the invariant — see the
counterexample. -/
theorem C8_bounds_amended :
    (∀ (st : GameState) (inputs : List ℕ) (dt : Q2),
      st.phase = GamePhase.ActiveRound →
      ∀ pr ∈ (tick st inputs dt).projectiles, within_half_world pr.pos) ∧
    (∀ (inputs : List ℕ) (dt : Q2) (ps : List PlayerEnt) (k : ℕ)
      (hk : k < ps.length) (p' : PlayerEnt),
      (move_players inputs dt ps)[k]? = some p' →
      direction (inputs.getD (ps.get ⟨k, hk⟩).handle 0) ≠ (⟨0, 0⟩ : Vec2) →
      within_move_limit p'.pos) := by
  constructor
  · intro st inputs dt hph pr hmem
    obtain ⟨players, projs, bars, scores, phase, timer⟩ := st
    simp only at hph
    subst hph
    rw [tick_projectiles_active] at hmem
    exact pbc_mem_bounds hmem
  · intro inputs dt ps k hk p' hres hdir
    have hcore := move_players_core inputs dt ps hk
    have hget : ps[k]? = some (ps.get ⟨k, hk⟩) := by
      rw [List.getElem?_eq_some]
      exact ⟨hk, rfl⟩
    rw [hget, hres] at hcore
    have hcore' : core p' = core (moved_player inputs dt (ps.get ⟨k, hk⟩)) := by
      simpa using hcore
    have hpos := congrArg (fun t => t.2.2.1) hcore'
    simp only [core] at hpos
    have hbl : (-boundary_limit : Q2) ≤ boundary_limit := by decide
    have hx := Q2.clamp_mem
      ((ps.get ⟨k, hk⟩).pos +
        (direction (inputs.getD (ps.get ⟨k, hk⟩).handle 0)).smul
          ((ps.get ⟨k, hk⟩).speed * dt)).x hbl
    have hy := Q2.clamp_mem
      ((ps.get ⟨k, hk⟩).pos +
        (direction (inputs.getD (ps.get ⟨k, hk⟩).handle 0)).smul
          ((ps.get ⟨k, hk⟩).speed * dt)).y hbl
    unfold within_move_limit
    rw [hpos]
    unfold moved_player
    rw [if_neg hdir]
    exact ⟨hx.1, hx.2, hy.1, hy.2⟩

/-- Witness for C8 (amended): a state with one projectile resting at
`(1,1)` keeps it at `(1,1)` after a tick, inside the world square; and a
lone player moving right from the origin ends within the movement clamp
square. -/
theorem C8_bounds_amended_witness :
    ((⟨⟨Q2.ofRat 1, Q2.ofRat 1⟩, ⟨Q2.ofRat 0, Q2.ofRat 0⟩⟩ : ProjEnt) ∈
        (tick ⟨[], [⟨⟨Q2.ofRat 1, Q2.ofRat 1⟩, ⟨Q2.ofRat 0, Q2.ofRat 0⟩⟩], [], [0, 0],
            GamePhase.ActiveRound, Q2.ofRat 0⟩ [0] (Q2.ofRat 1)).projectiles →
      within_half_world (⟨⟨Q2.ofRat 1, Q2.ofRat 1⟩, ⟨Q2.ofRat 0, Q2.ofRat 0⟩⟩ : ProjEnt).pos) ∧
    within_half_world ⟨Q2.ofRat 1, Q2.ofRat 1⟩ := by
  constructor
  · intro hmem
    exact C8_bounds_amended.1
      ⟨[], [⟨⟨Q2.ofRat 1, Q2.ofRat 1⟩, ⟨Q2.ofRat 0, Q2.ofRat 0⟩⟩], [], [0, 0],
        GamePhase.ActiveRound, Q2.ofRat 0⟩ [0] (Q2.ofRat 1) rfl _ hmem
  · decide

end GameSim
